import Mathlib

/-!
A shallow embedding of `src/data-prep/convert_runs_in_hprc_to_locus_table.py`.

The script is a streaming group-by aggregation: it reads tab-separated
(locus_id, motif, sample_id, allele_size) records, groups contiguous runs of
equal (locus_id, motif) keys, and emits one output row per group with two
histograms and summary statistics.  Machine integers are modelled by `Int`
(Python integers are unbounded), numpy's float statistics by exact rationals
(`Rat`), and fatal `parser.error` / `ValueError` aborts by an explicit error
type.  A 4-field input line whose allele_size field fails `int(...)` is
modelled by a record carrying `none` for its allele size.
-/

deriving instance DecidableEq for Except

namespace TRE

/-- Fatal abort conditions of the script: unresolvable compound locus id
(`ValueError` at line 44), a sample with an allele count other than 1 or 2
(`ValueError` at line 58), and the sort-order violation (`parser.error` at
lines 121 and 148). -/
inductive Err where
  | locusResolve (motif locus_id : String)
  | alleleCount (n : Nat) (sample locus motif : String)
  | notSorted (lineNumber : Nat) (locus : String)
deriving DecidableEq, Repr

/-- One output row, as written by `process_group` (lines 66-76). -/
structure OutputRow where
  locus_id : String
  motif : String
  allele_size_histogram : String
  biallelic_histogram : String
  mode_allele : Int
  mean : String
  stdev : String
  median : Int
  p99 : Int
deriving DecidableEq, Repr

/-- One input line after the field split (lines 105-110): `malformed` is a line
with a field count other than 4 (warned and skipped); `row` is a 4-field line,
with `allele_size = none` when the 4th field does not parse as an integer. -/
inductive Line where
  | malformed
  | row (locus_id motif sample_id : String) (allele_size : Option Int)
deriving DecidableEq, Repr

/-- Python's `sorted` on a list of integers (ascending, stable). -/
def sortInts (l : List Int) : List Int := List.insertionSort (· ≤ ·) l

/-- Order used by `sorted(allele_counts.items())` (line 62): Python compares
the `(size, count)` tuples lexicographically. -/
def leSizeEntry (a b : Int × Nat) : Prop := a.1 < b.1 ∨ (a.1 = b.1 ∧ a.2 ≤ b.2)

instance : DecidableRel leSizeEntry := fun a b => by
  unfold leSizeEntry; infer_instance

/-- Order used by `sorted(genotype_counts.items(), key=lambda x: (x[0][1], x[0][0]))`
(line 63): lexicographic on the key `(high, low)` of a genotype `(low, high)`. -/
def leGenoEntry (a b : (Int × Int) × Nat) : Prop :=
  a.1.2 < b.1.2 ∨ (a.1.2 = b.1.2 ∧ a.1.1 ≤ b.1.1)

instance : DecidableRel leGenoEntry := fun a b => by
  unfold leGenoEntry; infer_instance

instance : IsTotal ((Int × Int) × Nat) leGenoEntry :=
  ⟨by
    intro a b
    unfold leGenoEntry
    rcases lt_trichotomy a.1.2 b.1.2 with h | h | h
    · exact Or.inl (Or.inl h)
    · rcases le_total a.1.1 b.1.1 with h2 | h2
      · exact Or.inl (Or.inr ⟨h, h2⟩)
      · exact Or.inr (Or.inr ⟨h.symm, h2⟩)
    · exact Or.inr (Or.inl h)⟩

instance : IsTrans ((Int × Int) × Nat) leGenoEntry :=
  ⟨by
    intro a b c hab hbc
    unfold leGenoEntry at hab hbc ⊢
    rcases hab with h1 | ⟨h1, h1'⟩
    · rcases hbc with h2 | ⟨h2, h2'⟩
      · exact Or.inl (lt_trans h1 h2)
      · exact Or.inl (h2 ▸ h1)
    · rcases hbc with h2 | ⟨h2, h2'⟩
      · exact Or.inl (h1 ▸ h2)
      · exact Or.inr ⟨h1.trans h2, h1'.trans h2'⟩⟩

/-- Strict version of the `(high, low)` key order, used to state that the
serialized genotype histogram is strictly ascending in its key. -/
def ltGenoEntry (a b : (Int × Int) × Nat) : Prop :=
  a.1.2 < b.1.2 ∨ (a.1.2 = b.1.2 ∧ a.1.1 < b.1.1)

def sortSizeEntries (l : List (Int × Nat)) : List (Int × Nat) :=
  List.insertionSort leSizeEntry l

def sortGenoEntries (l : List ((Int × Int) × Nat)) : List ((Int × Int) × Nat) :=
  List.insertionSort leGenoEntry l

/-- Distinct values in first-occurrence order, skipping values already in
`seen`. -/
def insertionKeysAux (seen : List Int) : List Int → List Int
  | [] => []
  | x :: t =>
    if x ∈ seen then insertionKeysAux seen t
    else x :: insertionKeysAux (x :: seen) t

/-- The distinct values of `l` in first-occurrence order: the key insertion
order of `collections.Counter(l)` (line 50). -/
def insertionKeys (l : List Int) : List Int := insertionKeysAux [] l

/-- `collections.Counter(ys).items()` for `ys` the (sorted) allele list:
`(value, multiplicity)` pairs in key insertion order. -/
def counterItems (ys : List Int) : List (Int × Nat) :=
  (insertionKeys ys).map (fun v => (v, ys.count v))

/-- `Counter.most_common(1)[0]`: the first item (in insertion order) attaining
the maximum count.  CPython's `heapq.nlargest(1, items, key=count)` is `max`
with ties resolved to the earliest element. -/
def mostCommonFirst : List (Int × Nat) → Option (Int × Nat)
  | [] => none
  | p :: rest =>
    match mostCommonFirst rest with
    | none => some p
    | some q => if p.2 < q.2 then some q else some p

/-- The mode allele extracted from the counter items (line 51).  The `none`
case is unreachable at call sites (the group is non-empty). -/
def modeOf (items : List (Int × Nat)) : Int :=
  match mostCommonFirst items with
  | some p => p.1
  | none => 0

/-- Lines 37-46: when `locus_id` contains a comma, pick the first
comma-separated candidate ending in `"-" ++ motif`; no candidate is fatal. -/
def resolveLocusId (locus_id motif : String) : Except Err String :=
  if locus_id.contains ',' then
    match (locus_id.splitOn ",").find? (fun c => c.endsWith ("-" ++ motif)) with
    | some c => .ok c
    | none => .error (.locusResolve motif locus_id)
  else .ok locus_id

/-- `genotype_counts[g] += 1` on a `defaultdict(int)` modelled as an
association list in key insertion order. -/
def bump (acc : List ((Int × Int) × Nat)) (g : Int × Int) : List ((Int × Int) × Nat) :=
  match acc with
  | [] => [(g, 1)]
  | e :: rest => if e.1 = g then (e.1, e.2 + 1) :: rest else e :: bump rest g

/-- `tuple(sorted(allele_list))` for a length-2 list (line 60); the other
branches are unreachable at call sites. -/
def pairOfSorted (l : List Int) : Int × Int :=
  match sortInts l with
  | a :: b :: _ => (a, b)
  | [a] => (a, a)
  | [] => (0, 0)

/-- Lines 55-60: duplicate a haploid single allele, then sort the pair. -/
def codeGeno (l : List Int) : Int × Int :=
  pairOfSorted (if l.length = 1 then l ++ l else l)

/-- The genotype tally loop (lines 53-60) over the per-sample allele lists in
dict insertion order; a list length other than 1 or 2 is fatal. -/
def genotypeTallyAux (rlid motif : String) (acc : List ((Int × Int) × Nat)) :
    List (String × List Int) → Except Err (List ((Int × Int) × Nat))
  | [] => .ok acc
  | (s, l) :: rest =>
    if l.length = 1 ∨ l.length = 2 then
      genotypeTallyAux rlid motif (bump acc (codeGeno l)) rest
    else
      .error (.alleleCount l.length s rlid motif)

/-- `⌊q⌋` computed on the normalized numerator and denominator with floor
division (kernel-reducible, unlike the `FloorRing` instance). -/
def floorQ (q : Rat) : Int := q.num.fdiv (q.den : Int)

/-- `⌈q⌉`, computed from `floorQ`. -/
def ceilQ (q : Rat) : Int := -floorQ (-q)

/-- Round a rational to the nearest integer, ties to even: the rounding used
by Python's `f"{x:.3f}"` formatting, modelled exactly over the rationals. -/
def rhe (q : Rat) : Int :=
  let f := floorQ q
  if q - (f : Rat) > 1/2 then f + 1
  else if q - (f : Rat) < 1/2 then f
  else if f % 2 = 0 then f else f + 1

/-- Zero-pad a numerator below 1000 to three digits. -/
def pad3 (n : Nat) : String :=
  if n < 10 then "00" ++ toString n
  else if n < 100 then "0" ++ toString n
  else toString n

/-- `f"{q:.3f}"` over an exact rational. -/
def fmt3 (q : Rat) : String :=
  let m := rhe (q * 1000)
  if m < 0 then "-" ++ toString (m.natAbs / 1000) ++ "." ++ pad3 (m.natAbs % 1000)
  else toString (m.natAbs / 1000) ++ "." ++ pad3 (m.natAbs % 1000)

/-- Fuelled integer square root: `isqrtAux fuel n` is `⌊√n⌋` whenever
`n < 4 ^ fuel`, by the base-4 recurrence `⌊√n⌋ ∈ {2s, 2s+1}` for
`s = ⌊√(n/4)⌋`.  Structural recursion on the fuel keeps it kernel-reducible. -/
def isqrtAux : Nat → Nat → Nat
  | 0, _ => 0
  | fuel + 1, n =>
    if n = 0 then 0
    else
      let r := isqrtAux fuel (n / 4) * 2
      if (r + 1) ^ 2 ≤ n then r + 1 else r

/-- `⌊√n⌋` for every `n < 4 ^ 128` — far beyond any quantity the script's
inputs can produce. -/
def isqrt (n : Nat) : Nat := isqrtAux 128 n

/-- Nearest integer to `√q` (for `q ≥ 0`), ties to even, computed with integer
square roots: `√(a/b) = √(a*b)/b` and `⌊√(a*b)/b⌋ = ⌊√(a*b)⌋ / b`. -/
def sqrtRHE (q : Rat) : Nat :=
  let a := q.num.toNat
  let b := q.den
  let f := isqrt (a * b) / b
  let c := b * (2 * f + 1) ^ 2
  if c < 4 * a then f + 1
  else if 4 * a < c then f
  else if f % 2 = 0 then f else f + 1

/-- `f"{np.std(xs):.3f}"`: format `√v` of the population variance `v` to three
decimal places (round half to even). -/
def fmtStd3 (v : Rat) : String :=
  let m := sqrtRHE (v * 1000000)
  toString (m / 1000) ++ "." ++ pad3 (m % 1000)

/-- Python's `int(...)` on a float/rational: truncation toward zero. -/
def truncQ (q : Rat) : Int :=
  if 0 ≤ q then floorQ q else ceilQ q

/-- `np.mean` over a list of integers, exactly. -/
def npMean (l : List Int) : Rat := (l.sum : Rat) / (l.length : Rat)

/-- `np.std` squared: the population variance (numpy default `ddof=0`). -/
def npVarPop (l : List Int) : Rat :=
  ((l.map (fun (x : Int) => ((x : Rat) - npMean l) ^ 2)).sum) / (l.length : Rat)

/-- `np.median` applied to an already-sorted list (the call site passes the
sorted allele list): middle element, or the average of the two middles. -/
def npMedianOfSorted (l : List Int) : Rat :=
  let n := l.length
  if n % 2 = 1 then ((l.getD (n / 2) 0 : Int) : Rat)
  else (((l.getD (n / 2 - 1) 0 + l.getD (n / 2) 0 : Int)) : Rat) / 2

/-- `np.percentile(l, 99)` applied to an already-sorted list: numpy's default
linear interpolation at rank `(n-1) * 99/100`. -/
def npPercentile99OfSorted (l : List Int) : Rat :=
  let n := l.length
  let r : Rat := ((n - 1 : Nat) : Rat) * 99 / 100
  let lo := (floorQ r).toNat
  let hi := (ceilQ r).toNat
  ((l.getD lo 0 : Int) : Rat) +
    (r - (lo : Rat)) * (((l.getD hi 0 : Int) : Rat) - ((l.getD lo 0 : Int) : Rat))

/-- `f"{allele_size}x:{count}"` (line 62). -/
def sizeEntryStr (e : Int × Nat) : String :=
  toString e.1 ++ "x:" ++ toString e.2

/-- `f"{genotype[0]}/{genotype[1]}:{count}"` (line 63). -/
def genoEntryStr (e : (Int × Int) × Nat) : String :=
  toString e.1.1 ++ "/" ++ toString e.1.2 ++ ":" ++ toString e.2

/-- `process_group` (lines 31-76): empty groups are dropped; the compound
locus id is resolved; statistics and both histograms are computed and one
output row is produced.  Errors mirror the two `ValueError`s, in source
order (locus resolution at lines 37-46 precedes the genotype loop). -/
def processGroup (locus_id motif : String) (allele_sizes : List Int)
    (bySample : List (String × List Int)) : Except Err (Option OutputRow) :=
  if allele_sizes.isEmpty then .ok none
  else
    match resolveLocusId locus_id motif with
    | .error e => .error e
    | .ok lid =>
      let ys := sortInts allele_sizes
      let items := counterItems ys
      match genotypeTallyAux lid motif [] bySample with
      | .error e => .error e
      | .ok tally =>
        .ok (some {
          locus_id := lid
          motif := motif
          allele_size_histogram :=
            String.intercalate "," ((sortSizeEntries items).map sizeEntryStr)
          biallelic_histogram :=
            String.intercalate "," ((sortGenoEntries tally).map genoEntryStr)
          mode_allele := modeOf items
          mean := fmt3 (npMean ys)
          stdev := fmtStd3 (npVarPop ys)
          median := truncQ (npMedianOfSorted ys)
          p99 := truncQ (npPercentile99OfSorted ys) })

/-- `sample_ids.add(...)` on a Python set, modelled as a duplicate-free list. -/
def insertNew (s : String) (l : List String) : List String :=
  if s ∈ l then l else l ++ [s]

/-- `alleles_for_current_key_by_sample_id[sample_id].append(allele_size)` on a
`defaultdict(list)`, modelled as an association list in key insertion order. -/
def addAllele (m : List (String × List Int)) (s : String) (a : Int) :
    List (String × List Int) :=
  match m with
  | [] => [(s, [a])]
  | e :: rest => if e.1 = s then (e.1, e.2 ++ [a]) :: rest else e :: addAllele rest s a

/-- The mutable state of the `main` scanning loop (lines 97-148).  `curLocus`
and `curMotif` model the Python loop variables `current_locus_id` and `motif`,
which outlive the loop and feed the final flush; `err` records a fatal abort
(after which the loop does no further work); `rows` is the output written so
far (header aside). -/
structure LoopState where
  previousKey : Option (String × String)
  seenKeys : List (String × String)
  alleles : List Int
  bySample : List (String × List Int)
  sampleIds : List String
  rows : List OutputRow
  curLocus : String
  curMotif : String
  lineNumber : Nat
  err : Option Err
deriving DecidableEq, Repr

/-- The state before the first line (lines 97-103); `curLocus`/`curMotif` are
unset in Python and only ever read when a record has set them. -/
def initState : LoopState :=
  { previousKey := none, seenKeys := [], alleles := [], bySample := []
    sampleIds := [], rows := [], curLocus := "", curMotif := ""
    lineNumber := 0, err := none }

/-- Lines 135-141: record a parsed allele size; an unparseable one is warned
and skipped, leaving the accumulators untouched. -/
def recordAllele (st : LoopState) (sample : String) (sz : Option Int) : LoopState :=
  match sz with
  | some a => { st with alleles := st.alleles ++ [a]
                        bySample := addAllele st.bySample sample a }
  | none => st

/-- Lines 129-132: flush the previous group into the output and reset the
accumulators; a `ValueError` escaping `process_group` aborts the run. -/
def flushInto (st : LoopState) (lid motif : String) : LoopState :=
  match processGroup lid motif st.alleles st.bySample with
  | .error e => { st with err := some e }
  | .ok none => { st with alleles := [], bySample := [] }
  | .ok (some row) => { st with alleles := [], bySample := []
                                rows := st.rows ++ [row] }

/-- Lines 118-132: at a key change, first check the closed key against
`previously_seen_keys` (fatal if present, citing the current line number and
the new record's raw locus id), then insert it, advance `previous_key`, and
flush the closed group. -/
def boundaryStep (st : LoopState) (currentKey : String × String) (locus : String)
    (pk : String × String) : LoopState :=
  if pk ∈ st.seenKeys then
    { st with err := some (.notSorted st.lineNumber locus) }
  else
    flushInto { st with seenKeys := pk :: st.seenKeys
                        previousKey := some currentKey } pk.1 pk.2

/-- One iteration of the scanning loop (lines 104-141) on one input line. -/
def step (st : LoopState) (line : Line) : LoopState :=
  if st.err.isSome then st
  else
    match line with
    | .malformed => { st with lineNumber := st.lineNumber + 1 }
    | .row locus motif sample sz =>
      let st1 := { st with lineNumber := st.lineNumber + 1
                           sampleIds := insertNew sample st.sampleIds
                           curLocus := locus, curMotif := motif }
      let currentKey := (locus, motif)
      let pk := st1.previousKey.getD currentKey
      let st2 :=
        if currentKey = pk then { st1 with previousKey := some currentKey }
        else boundaryStep st1 currentKey locus pk
      if st2.err.isSome then st2 else recordAllele st2 sample sz

/-- Lines 143-148: after the stream ends, if the open accumulator is non-empty,
flush it and only then run the duplicate check on its key; an empty final
accumulator skips both the flush and the check. -/
def finish (st : LoopState) : LoopState :=
  if st.err.isSome then st
  else if st.alleles.isEmpty then st
  else
    match processGroup st.curLocus st.curMotif st.alleles st.bySample with
    | .error e => { st with err := some e }
    | .ok none => st
    | .ok (some row) =>
      let st' := { st with rows := st.rows ++ [row] }
      if (st.curLocus, st.curMotif) ∈ st.seenKeys then
        { st' with err := some (.notSorted st.lineNumber st.curLocus) }
      else st'

/-- Fold the scanning loop over a list of lines. -/
def runAll (st : LoopState) (lines : List Line) : LoopState :=
  lines.foldl step st

/-- The whole run of `main` on an input stream. -/
def runMain (lines : List Line) : LoopState :=
  finish (runAll initState lines)

/-- The rows a flush result appends to the output. -/
def flushRowsOf (r : Except Err (Option OutputRow)) : List OutputRow :=
  match r with
  | .ok (some row) => [row]
  | _ => []

/-- The abort, if any, a flush result leaves behind. -/
def flushErrOf (r : Except Err (Option OutputRow)) : Option Err :=
  match r with
  | .error e => some e
  | .ok _ => none

/-- Spec-side mean: the arithmetic mean of the group's allele sizes. -/
def specMean (xs : List Int) : Rat := (xs.sum : Rat) / (xs.length : Rat)

/-- Spec-side population variance: squared deviations from the mean averaged
with divisor `N` (not `N - 1`). -/
def specPopVar (xs : List Int) : Rat :=
  ((xs.map (fun (x : Int) => ((x : Rat) - specMean xs) ^ 2)).sum) / (xs.length : Rat)

/-- Spec-side median of the sorted allele sizes: the middle element for odd
length, the average of the two middle elements for even length. -/
def specMedian (xs : List Int) : Rat :=
  let ys := sortInts xs
  let n := ys.length
  if n % 2 = 1 then ((ys.getD (n / 2) 0 : Int) : Rat)
  else (((ys.getD (n / 2 - 1) 0 + ys.getD (n / 2) 0 : Int)) : Rat) / 2

/-- Spec-side 99th percentile with linear-interpolation-between-ranks
semantics: rank `r = 99/100 * (n - 1)` into the sorted values, interpolating
between the neighbouring ranks. -/
def specPercentile99 (xs : List Int) : Rat :=
  let ys := sortInts xs
  let r : Rat := 99 * ((xs.length : Rat) - 1) / 100
  let lo := (floorQ r).toNat
  let hi := (ceilQ r).toNat
  ((ys.getD lo 0 : Int) : Rat) +
    (r - (lo : Rat)) * (((ys.getD hi 0 : Int) : Rat) - ((ys.getD lo 0 : Int) : Rat))

/-- Spec-side genotype normalization: a single haploid allele is duplicated to
a homozygous pair, a diploid pair is sorted ascending to `(low, high)`; any
other length is rejected. -/
def specGenotypeOf (l : List Int) : Option (Int × Int) :=
  match l with
  | [a] => some (a, a)
  | [a, b] => some (min a b, max a b)
  | _ => none

/-- The escape-hatch condition for the end-of-stream duplicate check: from the
reappearance of key `K` onward, either some record carries a different key
(a later boundary detects the violation) or some record with key `K` has a
valid allele size (the final accumulator is non-empty, so the end-of-stream
check runs). -/
def tailRescue (K : String × String) (L : List Line) : Prop :=
  ∃ x ∈ L, ∃ a b c d, x = Line.row a b c d ∧ ((a, b) ≠ K ∨ d ≠ none)

/-! Concrete data used by the end-to-end example, the counterexamples and the
witnesses. -/

/-- The spec's end-to-end example stream: rows `L1 A S1 10`, `L1 A S1 12`,
`L1 A S2 10`. -/
def exampleStream : List Line :=
  [.row "L1" "A" "S1" (some 10), .row "L1" "A" "S1" (some 12),
   .row "L1" "A" "S2" (some 10)]

/-- The single row the example stream produces. -/
def exampleRow : OutputRow :=
  { locus_id := "L1", motif := "A", allele_size_histogram := "10x:2,12x:1"
    biallelic_histogram := "10/10:1,10/12:1", mode_allele := 10
    mean := "10.667", stdev := "0.943", median := 10, p99 := 11 }

/-- The per-sample allele lists accumulated for the example stream. -/
def exampleBySample : List (String × List Int) := [("S1", [10, 12]), ("S2", [10])]

/-- A stream whose keys are `(L1,A)`, `(L2,A)`, `(L1,A)` — the key `(L1,A)` is
finalized and then reappears non-contiguously — but whose final block consists
of a single record with an unparseable allele size. -/
def escapeStream : List Line :=
  [.row "L1" "A" "S1" (some 10), .row "L2" "A" "S1" (some 10),
   .row "L1" "A" "S1" none]

/-- A stream with key blocks `(L1,A)`, `(L2,A)`, `(L1,A)`, `(L3,A)`: the
sort-order violation on the second `(L1,A)` block is detected mid-stream at
line 4. -/
def midViolationStream : List Line :=
  [.row "L1" "A" "S1" (some 10), .row "L2" "A" "S1" (some 10),
   .row "L1" "A" "S1" (some 11), .row "L3" "A" "S1" (some 12)]

/-- A loop state mid-run with open key `(L1,A)` (not yet seen) and one
accumulated record. -/
def openState : LoopState :=
  { previousKey := some ("L1", "A"), seenKeys := [("L0", "A")], alleles := [7]
    bySample := [("S1", [7])], sampleIds := ["S1"], rows := [], curLocus := "L1"
    curMotif := "A", lineNumber := 3, err := none }

/-- A loop state mid-run whose open key `(L1,A)` is already in `seenKeys`. -/
def dupState : LoopState :=
  { openState with seenKeys := [("L1", "A"), ("L0", "A")] }

/-- The row flushed from `openState`'s accumulator. -/
def openStateRow : OutputRow :=
  { locus_id := "L1", motif := "A", allele_size_histogram := "7x:1"
    biallelic_histogram := "7/7:1", mode_allele := 7
    mean := "7.000", stdev := "0.000", median := 7, p99 := 7 }

/-- Allele sizes with a frequency tie between 10 and 12, used to witness the
mode tie-break. -/
def tieSizes : List Int := [12, 10, 12, 10, 11]

/-- Per-sample lists matching `tieSizes`. -/
def tieBySample : List (String × List Int) :=
  [("S1", [12, 10]), ("S2", [12, 10]), ("S3", [11])]

/-- The row produced from the tie example. -/
def tieRow : OutputRow :=
  { locus_id := "L", motif := "A", allele_size_histogram := "10x:2,11x:1,12x:2"
    biallelic_histogram := "11/11:1,10/12:2", mode_allele := 10
    mean := "11.000", stdev := "0.894", median := 11, p99 := 12 }

/-- The row produced from the compound-locus example `a-1-A,b-2-T` with
motif `T`. -/
def compoundRow : OutputRow :=
  { locus_id := "b-2-T", motif := "T", allele_size_histogram := "3x:1"
    biallelic_histogram := "3/3:1", mode_allele := 3
    mean := "3.000", stdev := "0.000", median := 3, p99 := 3 }

/-! ### Theorems -/

/-- C1: on the input stream `(L1,A,S1,10)`, `(L1,A,S1,12)`, `(L1,A,S2,10)` the
run emits exactly one group row with `locus_id = L1`, `motif = A`,
`allele_size_histogram = "10x:2,12x:1"`, `biallelic_histogram =
"10/10:1,10/12:1"` (S1's diploid pair `(10,12)`, S2's haploid value duplicated
to `(10,10)`, ordered by `(high, low)`), `mode_allele = 10`, mean formatted as
`10.667`, median truncated to `10`, and 99th percentile the truncated
linear-interpolated rank value, `11`. -/
theorem C1_end_to_end_example :
    (runMain exampleStream).err = none ∧
    (runMain exampleStream).rows = [exampleRow] ∧
    exampleRow.locus_id = "L1" ∧ exampleRow.motif = "A" ∧
    exampleRow.allele_size_histogram = "10x:2,12x:1" ∧
    exampleRow.biallelic_histogram = "10/10:1,10/12:1" ∧
    exampleRow.mode_allele = 10 ∧ exampleRow.mean = "10.667" ∧
    exampleRow.median = truncQ (npMedianOfSorted (sortInts [10, 12, 10])) ∧
    exampleRow.median = 10 ∧
    exampleRow.p99 = truncQ (npPercentile99OfSorted (sortInts [10, 12, 10])) ∧
    exampleRow.p99 = 11 := by
  with_unfolding_all decide

/-- C5 counterexample: in `escapeStream` the key `(L1,A)` is finalized (its
row is emitted and the key recorded), a different key `(L2,A)` intervenes, and
`(L1,A)` then reappears in a final block whose only record has an unparseable
allele size — yet the run completes without any fatal error, because the
end-of-stream duplicate check is guarded by the final accumulator being
non-empty (line 144). -/
theorem C5_counterexample :
    (runMain escapeStream).err = none ∧
    (runMain escapeStream).rows.map (fun r => r.locus_id) = ["L1", "L2"] := by
  with_unfolding_all decide

/-- C6 counterexample: in `midViolationStream` the mid-stream sort-order
violation on the second `(L1,A)` block aborts the run at line 4, but the
offending group's row has NOT been emitted: only the two earlier groups'
rows were written, because the duplicate check precedes the flush
(lines 120-129). -/
theorem C6_counterexample :
    (runMain midViolationStream).err = some (.notSorted 4 "L3") ∧
    (runMain midViolationStream).rows.map (fun r => r.locus_id) = ["L1", "L2"] := by
  with_unfolding_all decide

/-- C6 (amended): when a record's key differs from the previous key
mid-stream, `previous_key` is first checked against `seen_keys` — aborting
fatally with the sort-order error citing the current line number, with no row
emitted for the offending group — and inserted into `seen_keys`; only after
that check-and-insert is the previous group flushed (its row, if any, appended
to the output). -/
theorem C6_check_precedes_flush (st : LoopState) (locus motif sample : String)
    (sz : Option Int) (P : String × String)
    (herr : st.err = none) (hprev : st.previousKey = some P)
    (hne : (locus, motif) ≠ P) :
    (P ∈ st.seenKeys →
      step st (.row locus motif sample sz) =
        { st with lineNumber := st.lineNumber + 1
                  sampleIds := insertNew sample st.sampleIds
                  curLocus := locus, curMotif := motif
                  err := some (.notSorted (st.lineNumber + 1) locus) }) ∧
    (P ∉ st.seenKeys →
      (step st (.row locus motif sample sz)).seenKeys = P :: st.seenKeys ∧
      (step st (.row locus motif sample sz)).previousKey = some (locus, motif) ∧
      (step st (.row locus motif sample sz)).rows =
        st.rows ++ flushRowsOf (processGroup P.1 P.2 st.alleles st.bySample) ∧
      (step st (.row locus motif sample sz)).err =
        flushErrOf (processGroup P.1 P.2 st.alleles st.bySample)) := by
  constructor
  · intro hmem
    simp [step, herr, hprev, boundaryStep, hne, hmem]
  · intro hmem
    simp only [step, herr, hprev, boundaryStep, hne, hmem, Option.isSome_none,
      Bool.false_eq_true, if_false, Option.getD_some, if_neg hne, if_neg hmem]
    simp only [flushInto]
    cases hpg : processGroup P.1 P.2 st.alleles st.bySample with
    | error e => simp [flushRowsOf, flushErrOf]
    | ok o =>
      cases o with
      | none =>
        simp only [flushRowsOf, flushErrOf]
        cases sz <;> simp [recordAllele]
      | some row =>
        simp only [flushRowsOf, flushErrOf]
        cases sz <;> simp [recordAllele]


/-- C9: a 4-field record whose allele_size field is unparseable still
participates in group-boundary detection before it is skipped: its sample_id
joins the process-lifetime sample set, and when its key differs from the
previous key the previous group is flushed, the previous key is
duplicate-checked and inserted into `seen_keys`, and the invalid record's key
becomes the new open group's key while the new accumulator stays empty. -/
theorem C9_invalid_record_boundary (st : LoopState) (locus motif sample : String)
    (P : String × String)
    (herr : st.err = none) (hprev : st.previousKey = some P) :
    (step st (.row locus motif sample none)).sampleIds =
      insertNew sample st.sampleIds ∧
    ((locus, motif) ≠ P → P ∈ st.seenKeys →
      (step st (.row locus motif sample none)).err =
        some (.notSorted (st.lineNumber + 1) locus)) ∧
    ((locus, motif) ≠ P → P ∉ st.seenKeys →
      (step st (.row locus motif sample none)).previousKey = some (locus, motif) ∧
      (step st (.row locus motif sample none)).seenKeys = P :: st.seenKeys ∧
      (step st (.row locus motif sample none)).rows =
        st.rows ++ flushRowsOf (processGroup P.1 P.2 st.alleles st.bySample) ∧
      (step st (.row locus motif sample none)).err =
        flushErrOf (processGroup P.1 P.2 st.alleles st.bySample) ∧
      ((step st (.row locus motif sample none)).err = none →
        (step st (.row locus motif sample none)).alleles = [] ∧
        (step st (.row locus motif sample none)).bySample = [])) := by
  refine ⟨?_, ?_, ?_⟩
  · by_cases hk : (locus, motif) = P
    · simp [step, herr, hprev, hk, recordAllele]
    · by_cases hmem : P ∈ st.seenKeys
      · simp [step, herr, hprev, boundaryStep, hk, hmem]
      · simp only [step, herr, hprev, boundaryStep, Option.isSome_none,
          Bool.false_eq_true, if_false, Option.getD_some, if_neg hk, if_neg hmem]
        simp only [flushInto]
        cases hpg : processGroup P.1 P.2 st.alleles st.bySample with
        | error e => simp
        | ok o => cases o <;> simp [recordAllele]
  · intro hk hmem
    simp [step, herr, hprev, boundaryStep, hk, hmem]
  · intro hk hmem
    simp only [step, herr, hprev, boundaryStep, Option.isSome_none,
      Bool.false_eq_true, if_false, Option.getD_some, if_neg hk, if_neg hmem]
    simp only [flushInto]
    cases hpg : processGroup P.1 P.2 st.alleles st.bySample with
    | error e => simp [flushRowsOf, flushErrOf]
    | ok o => cases o <;> simp [flushRowsOf, flushErrOf, recordAllele]


/-- Witness for C6: concrete states with open key `(L1,A)`; in `dupState` the
key is already seen, so the step aborts citing line 4 and writes nothing; in
`openState` it is new, so the group is flushed and the key inserted. -/
theorem C6_witness :
    (step dupState (.row "L9" "A" "S1" (some 3))).err = some (.notSorted 4 "L9") ∧
    (step dupState (.row "L9" "A" "S1" (some 3))).rows = [] ∧
    (step openState (.row "L9" "A" "S1" (some 3))).rows = [openStateRow] ∧
    (step openState (.row "L9" "A" "S1" (some 3))).seenKeys = [("L1", "A"), ("L0", "A")] := by
  have h1 := C6_check_precedes_flush dupState "L9" "A" "S1" (some 3) ("L1", "A")
    (by with_unfolding_all decide) (by with_unfolding_all decide) (by with_unfolding_all decide)
  have h2 := C6_check_precedes_flush openState "L9" "A" "S1" (some 3) ("L1", "A")
    (by with_unfolding_all decide) (by with_unfolding_all decide) (by with_unfolding_all decide)
  have hm1 : ("L1", "A") ∈ dupState.seenKeys := by with_unfolding_all decide
  have hm2 : ("L1", "A") ∉ openState.seenKeys := by with_unfolding_all decide
  refine ⟨?_, ?_, ?_, ?_⟩
  · rw [h1.1 hm1]
    with_unfolding_all decide
  · rw [h1.1 hm1]
    with_unfolding_all decide
  · rw [(h2.2 hm2).2.2.1]
    with_unfolding_all decide
  · exact (h2.2 hm2).1

/-- Witness for C9: an invalid record with a new key `(L9,A)` arriving at
`openState` adds its sample, flushes the `(L1,A)` group, and opens an empty
accumulator under the new key. -/
theorem C9_witness :
    (step openState (.row "L9" "A" "S2" none)).sampleIds = ["S1", "S2"] ∧
    (step openState (.row "L9" "A" "S2" none)).previousKey = some ("L9", "A") ∧
    (step openState (.row "L9" "A" "S2" none)).rows = [openStateRow] ∧
    (step openState (.row "L9" "A" "S2" none)).alleles = [] := by
  have h := C9_invalid_record_boundary openState "L9" "A" "S2" ("L1", "A")
    (by with_unfolding_all decide) (by with_unfolding_all decide)
  have hk : ("L9", "A") ≠ (("L1", "A") : String × String) := by with_unfolding_all decide
  have hm : ("L1", "A") ∉ openState.seenKeys := by with_unfolding_all decide
  have herr2 : (step openState (.row "L9" "A" "S2" none)).err = none := by
    rw [(h.2.2 hk hm).2.2.2.1]
    with_unfolding_all decide
  refine ⟨?_, (h.2.2 hk hm).1, ?_, ((h.2.2 hk hm).2.2.2.2 herr2).1⟩
  · rw [h.1]
    with_unfolding_all decide
  · rw [(h.2.2 hk hm).2.2.1]
    with_unfolding_all decide

/-- Inversion of a successful `processGroup`: the group was non-empty, the
locus resolved, the genotype tally succeeded, and the row is the literal
built from them. -/
theorem processGroup_ok_some (lid motif : String) (xs : List Int)
    (bys : List (String × List Int)) (row : OutputRow)
    (h : processGroup lid motif xs bys = .ok (some row)) :
    xs ≠ [] ∧ ∃ rlid tally,
      resolveLocusId lid motif = .ok rlid ∧
      genotypeTallyAux rlid motif [] bys = .ok tally ∧
      row = { locus_id := rlid, motif := motif,
              allele_size_histogram :=
                String.intercalate "," ((sortSizeEntries (counterItems (sortInts xs))).map sizeEntryStr),
              biallelic_histogram :=
                String.intercalate "," ((sortGenoEntries tally).map genoEntryStr),
              mode_allele := modeOf (counterItems (sortInts xs)),
              mean := fmt3 (npMean (sortInts xs)),
              stdev := fmtStd3 (npVarPop (sortInts xs)),
              median := truncQ (npMedianOfSorted (sortInts xs)),
              p99 := truncQ (npPercentile99OfSorted (sortInts xs)) } := by
  unfold processGroup at h
  by_cases he : xs.isEmpty
  · rw [if_pos he] at h
    exact absurd h (by simp)
  · rw [if_neg he] at h
    refine ⟨by simpa using he, ?_⟩
    cases hr : resolveLocusId lid motif with
    | error e => rw [hr] at h; exact absurd h (by simp)
    | ok rlid =>
      rw [hr] at h
      dsimp only at h
      cases ht : genotypeTallyAux rlid motif [] bys with
      | error e => rw [ht] at h; exact absurd h (by simp)
      | ok tally =>
        rw [ht] at h
        simp only [Except.ok.injEq, Option.some.injEq] at h
        exact ⟨rlid, tally, rfl, ht, h.symm⟩

/-- C7: for a finalized group whose raw locus_id contains a comma, the emitted
locus_id is exactly the first comma-separated candidate with suffix
`-<motif>` (first match wins), the motif field is unaltered, and zero matching
candidates abort the run with the disambiguation error naming the motif. -/
theorem C7_locus_disambiguation :
    (∀ (lid motif : String) (xs : List Int) (bys : List (String × List Int))
        (row : OutputRow) (c₁ : List String) (c : String) (c₂ : List String),
        lid.contains ',' = true →
        lid.splitOn "," = c₁ ++ c :: c₂ →
        (∀ c' ∈ c₁, c'.endsWith ("-" ++ motif) = false) →
        c.endsWith ("-" ++ motif) = true →
        processGroup lid motif xs bys = .ok (some row) →
        row.locus_id = c ∧ row.motif = motif) ∧
    (∀ (lid motif : String) (xs : List Int) (bys : List (String × List Int)),
        lid.contains ',' = true →
        (∀ c ∈ lid.splitOn ",", c.endsWith ("-" ++ motif) = false) →
        xs ≠ [] →
        processGroup lid motif xs bys = .error (.locusResolve motif lid)) := by
  constructor
  · intro lid motif xs bys row c₁ c c₂ hcomma hsplit hno hyes h
    have hres : resolveLocusId lid motif = .ok c := by
      unfold resolveLocusId
      rw [if_pos hcomma, hsplit, List.find?_append]
      rw [List.find?_eq_none.2 (by intro x hx; simp [hno x hx]),
        @List.find?_cons_of_pos _ (fun s => s.endsWith ("-" ++ motif)) c c₂ hyes]
      rfl
    obtain ⟨-, rlid, tally, hr, -, hrow⟩ := processGroup_ok_some lid motif xs bys row h
    rw [hres] at hr
    cases hr
    rw [hrow]
    exact ⟨rfl, rfl⟩
  · intro lid motif xs bys hcomma hno hne
    have hres : resolveLocusId lid motif = .error (.locusResolve motif lid) := by
      unfold resolveLocusId
      rw [if_pos hcomma, List.find?_eq_none.2 (by intro x hx; simp [hno x hx])]
    unfold processGroup
    rw [if_neg (by simpa using hne), hres]

/-- Witness for C7: `a-1-A,b-2-T` with motif `T` resolves to `b-2-T`; with
motif `G` it aborts with the disambiguation error. -/
theorem C7_witness :
    compoundRow.locus_id = "b-2-T" ∧ compoundRow.motif = "T" ∧
    processGroup "a-1-A,b-2-T" "G" [3] [("S1", [3])] =
      .error (.locusResolve "G" "a-1-A,b-2-T") := by
  have h := C7_locus_disambiguation
  have h1 := h.1 "a-1-A,b-2-T" "T" [3] [("S1", [3])] compoundRow ["a-1-A"] "b-2-T" []
    (by with_unfolding_all decide) (by with_unfolding_all decide)
    (by with_unfolding_all decide) (by with_unfolding_all decide)
    (by with_unfolding_all decide)
  exact ⟨h1.1, h1.2, h.2 "a-1-A,b-2-T" "G" [3] [("S1", [3])]
    (by with_unfolding_all decide) (by with_unfolding_all decide)
    (by with_unfolding_all decide)⟩

theorem insertionKeysAux_sublist (l : List Int) : ∀ seen, (insertionKeysAux seen l).Sublist l := by
  induction l with
  | nil => intro seen; simp [insertionKeysAux]
  | cons x t ih =>
    intro seen
    unfold insertionKeysAux
    by_cases hx : x ∈ seen
    · rw [if_pos hx]
      exact (ih seen).cons x
    · rw [if_neg hx]
      exact (ih (x :: seen)).cons₂ x

theorem mem_insertionKeysAux (l : List Int) :
    ∀ seen v, v ∈ insertionKeysAux seen l ↔ v ∈ l ∧ v ∉ seen := by
  induction l with
  | nil => intro seen v; simp [insertionKeysAux]
  | cons x t ih =>
    intro seen v
    unfold insertionKeysAux
    by_cases hx : x ∈ seen
    · rw [if_pos hx, ih]
      constructor
      · rintro ⟨hv, hns⟩
        exact ⟨List.mem_cons_of_mem x hv, hns⟩
      · rintro ⟨hv, hns⟩
        rcases List.mem_cons.1 hv with rfl | hv
        · exact absurd hx hns
        · exact ⟨hv, hns⟩
    · rw [if_neg hx]
      constructor
      · intro hmem
        rcases List.mem_cons.1 hmem with rfl | hmem
        · exact ⟨List.mem_cons_self v t, hx⟩
        · obtain ⟨hv, hns⟩ := (ih (x :: seen) v).1 hmem
          exact ⟨List.mem_cons_of_mem x hv,
            fun hs => hns (List.mem_cons_of_mem x hs)⟩
      · rintro ⟨hv, hns⟩
        by_cases hvx : v = x
        · exact hvx ▸ List.mem_cons_self x _
        · rcases List.mem_cons.1 hv with rfl | hv
          · exact absurd rfl hvx
          · refine List.mem_cons_of_mem x ((ih (x :: seen) v).2 ⟨hv, fun hs => ?_⟩)
            rcases List.mem_cons.1 hs with h | h
            exacts [hvx h, hns h]

theorem insertionKeysAux_nodup (l : List Int) : ∀ seen, (insertionKeysAux seen l).Nodup := by
  induction l with
  | nil => intro seen; simp [insertionKeysAux]
  | cons x t ih =>
    intro seen
    unfold insertionKeysAux
    by_cases hx : x ∈ seen
    · rw [if_pos hx]; exact ih seen
    · rw [if_neg hx]
      refine List.nodup_cons.2 ⟨fun hmem => ?_, ih (x :: seen)⟩
      exact ((mem_insertionKeysAux t (x :: seen) x).1 hmem).2 (List.mem_cons_self x seen)

theorem mem_insertionKeys (l : List Int) (v : Int) : v ∈ insertionKeys l ↔ v ∈ l := by
  unfold insertionKeys
  rw [mem_insertionKeysAux]
  simp

/-- Counter keys taken from an ascending list are strictly increasing. -/
theorem insertionKeys_strict_of_sorted (l : List Int) (hs : l.Sorted (· ≤ ·)) :
    (insertionKeys l).Pairwise (· < ·) := by
  have hsub : (insertionKeys l).Sublist l := insertionKeysAux_sublist l []
  have hle : (insertionKeys l).Pairwise (· ≤ ·) := hs.sublist hsub
  have hne : (insertionKeys l).Pairwise (· ≠ ·) := insertionKeysAux_nodup l []
  exact (hle.and hne).imp (fun h => lt_of_le_of_ne h.1 h.2)

/-- `most_common(1)[0]` returns an item of the list attaining the maximum
count; when the first components are strictly increasing, it is the earliest
(smallest-keyed) item among those attaining the maximum. -/
theorem mostCommonFirst_spec (items : List (Int × Nat)) (hne : items ≠ []) :
    ∃ p, mostCommonFirst items = some p ∧ p ∈ items ∧
      (∀ q ∈ items, q.2 ≤ p.2) ∧
      (items.Pairwise (fun a b => a.1 < b.1) → ∀ q ∈ items, q.2 = p.2 → p.1 ≤ q.1) := by
  induction items with
  | nil => exact absurd rfl hne
  | cons a rest ih =>
    by_cases hr0 : rest = []
    · subst hr0
      refine ⟨a, by simp [mostCommonFirst], List.mem_cons_self a [], ?_, ?_⟩
      · intro q hq
        rcases List.mem_cons.1 hq with rfl | hq
        · exact le_refl _
        · simp at hq
      · intro _ q hq _
        rcases List.mem_cons.1 hq with rfl | hq
        · exact le_refl _
        · simp at hq
    · obtain ⟨m, hm, hmem, hmax, hfirst⟩ := ih hr0
      have heq : mostCommonFirst (a :: rest) = if a.2 < m.2 then some m else some a := by
        simp only [mostCommonFirst, hm]
      by_cases hlt : a.2 < m.2
      · refine ⟨m, by rw [heq, if_pos hlt], List.mem_cons_of_mem a hmem, ?_, ?_⟩
        · intro q hq
          rcases List.mem_cons.1 hq with rfl | hq
          · exact le_of_lt hlt
          · exact hmax q hq
        · intro hinc q hq hq2
          rcases List.mem_cons.1 hq with rfl | hq
          · exact absurd hq2 (Nat.ne_of_lt hlt)
          · exact hfirst (List.pairwise_cons.1 hinc).2 q hq hq2
      · refine ⟨a, by rw [heq, if_neg hlt], List.mem_cons_self a rest, ?_, ?_⟩
        · intro q hq
          rcases List.mem_cons.1 hq with rfl | hq
          · exact le_refl _
          · exact le_trans (hmax q hq) (Nat.le_of_not_lt hlt)
        · intro hinc q hq _
          rcases List.mem_cons.1 hq with rfl | hq
          · exact le_refl _
          · exact le_of_lt ((List.pairwise_cons.1 hinc).1 q hq)


/-- C2: for every finalized group with at least one valid record, the emitted
mode_allele attains the maximum frequency in the group's allele multiset, and
is the smallest value among all sizes sharing that maximum frequency. -/
theorem C2_mode_smallest_max (lid motif : String) (xs : List Int)
    (bys : List (String × List Int)) (row : OutputRow)
    (h : processGroup lid motif xs bys = .ok (some row)) :
    (∀ v : Int, xs.count v ≤ xs.count row.mode_allele) ∧
    (∀ v : Int, xs.count v = xs.count row.mode_allele → row.mode_allele ≤ v) := by
  obtain ⟨hne, rlid, tally, hr, ht, hrow⟩ := processGroup_ok_some lid motif xs bys row h
  have hmode : row.mode_allele = modeOf (counterItems (sortInts xs)) := by rw [hrow]
  set ys := sortInts xs with hys
  have hperm : ys.Perm xs := List.perm_insertionSort _ xs
  have hcnt : ∀ v, ys.count v = xs.count v := fun v => hperm.count_eq v
  have hysne : ys ≠ [] := by
    intro h0
    apply hne
    have := hperm.length_eq
    rw [h0] at this
    exact List.length_eq_zero.1 this.symm
  have hkeysne : insertionKeys ys ≠ [] := by
    obtain ⟨y, hy⟩ := List.exists_mem_of_ne_nil ys hysne
    intro h0
    exact absurd ((mem_insertionKeys ys y).2 hy) (by rw [h0]; simp)
  have hitemsne : counterItems ys ≠ [] := by
    unfold counterItems
    simpa using hkeysne
  obtain ⟨p, hp, hpmem, hpmax, hpfirst⟩ := mostCommonFirst_spec (counterItems ys) hitemsne
  have hmodeP : row.mode_allele = p.1 := by
    rw [hmode, modeOf]
    rw [hp]
  have hinc : (counterItems ys).Pairwise (fun a b => a.1 < b.1) := by
    unfold counterItems
    rw [List.pairwise_map]
    exact insertionKeys_strict_of_sorted ys (List.sorted_insertionSort _ xs)
  obtain ⟨w, hwmem, hwp⟩ := List.mem_map.1 hpmem
  have hwp' : (w, ys.count w) = p := hwp
  subst hwp'
  have hwys : w ∈ ys := (mem_insertionKeys ys w).1 hwmem
  have hitem_of_mem : ∀ v ∈ ys, (v, ys.count v) ∈ counterItems ys := by
    intro v hv
    exact List.mem_map.2 ⟨v, (mem_insertionKeys ys v).2 hv, rfl⟩
  rw [hmodeP]
  constructor
  · intro v
    rw [← hcnt v, ← hcnt w]
    by_cases hvys : v ∈ ys
    · exact hpmax (v, ys.count v) (hitem_of_mem v hvys)
    · rw [List.count_eq_zero.2 hvys]
      exact Nat.zero_le _
  · intro v hv
    rw [← hcnt v, ← hcnt w] at hv
    by_cases hvys : v ∈ ys
    · exact hpfirst hinc (v, ys.count v) (hitem_of_mem v hvys) hv
    · rw [List.count_eq_zero.2 hvys] at hv
      have hpos : 0 < ys.count w := List.count_pos_iff.2 hwys
      rw [← hv] at hpos
      exact absurd hpos (lt_irrefl 0)


/-- Witness for C2: on `[12, 10, 12, 10, 11]` the counts of 10 and 12 tie at 2
and the emitted mode is 10, the smaller of the tied values. -/
theorem C2_witness :
    processGroup "L" "A" tieSizes tieBySample = .ok (some tieRow) ∧
    tieRow.mode_allele = 10 ∧
    tieSizes.count 12 ≤ tieSizes.count tieRow.mode_allele ∧
    (tieSizes.count 12 = tieSizes.count tieRow.mode_allele → tieRow.mode_allele ≤ 12) := by
  have hpg : processGroup "L" "A" tieSizes tieBySample = .ok (some tieRow) := by
    with_unfolding_all decide
  have h := C2_mode_smallest_max "L" "A" tieSizes tieBySample tieRow hpg
  exact ⟨hpg, by with_unfolding_all decide, h.1 12, h.2 12⟩

theorem sum_indicator (K : List Int) (hnd : K.Nodup) (y : Int) (hy : y ∈ K) :
    (K.map (fun v => if v = y then 1 else 0)).sum = 1 := by
  induction K with
  | nil => simp at hy
  | cons a rest ih =>
    rcases List.mem_cons.1 hy with rfl | hy
    · have hnotin : y ∉ rest := (List.nodup_cons.1 hnd).1
      have hz : (rest.map (fun v => if v = y then 1 else 0)).sum = 0 := by
        rw [List.sum_eq_zero]
        intro x hx
        obtain ⟨v, hv, hvx⟩ := List.mem_map.1 hx
        have hva : v ≠ y := fun hva => hnotin (hva ▸ hv)
        simpa [hva] using hvx.symm
      simp [hz]
    · have hane : a ≠ y := by
        rintro rfl
        exact (List.nodup_cons.1 hnd).1 hy
      simp [hane, ih (List.nodup_cons.1 hnd).2 hy]

theorem sum_map_add (K : List Int) (f g : Int → Nat) :
    (K.map (fun v => f v + g v)).sum = (K.map f).sum + (K.map g).sum := by
  induction K with
  | nil => simp
  | cons a rest ih => simp [ih]; omega

/-- Summing multiplicities over any duplicate-free cover of a list's values
gives the list's length. -/
theorem sum_counts_of_cover (ys : List Int) :
    ∀ K : List Int, K.Nodup → (∀ y ∈ ys, y ∈ K) →
      (K.map (fun v => ys.count v)).sum = ys.length := by
  induction ys with
  | nil => intro K _ _; simp
  | cons y t ih =>
    intro K hnd hcov
    have hcnt : ∀ v : Int, (y :: t).count v = t.count v + (if v = y then 1 else 0) := by
      intro v
      rw [List.count_cons]
      rcases eq_or_ne v y with rfl | hvy
      · simp
      · simp [hvy, Ne.symm hvy]
    calc (K.map (fun v => (y :: t).count v)).sum
        = (K.map (fun v => t.count v + (if v = y then 1 else 0))).sum := by
          congr 1
          exact List.map_congr_left (fun v _ => hcnt v)
      _ = (K.map (fun v => t.count v)).sum + (K.map (fun v => if v = y then 1 else 0)).sum :=
          sum_map_add K _ _
      _ = t.length + 1 := by
          rw [ih K hnd (fun z hz => hcov z (List.mem_cons_of_mem y hz)),
            sum_indicator K hnd y (hcov y (List.mem_cons_self y t))]
      _ = (y :: t).length := by simp

/-- C8: the serialized allele-size histogram of an emitted row is built from
entries whose counts sum to the number of contributing valid allele-size
records of the group (the length of its `allele_sizes`). -/
theorem C8_size_histogram_total (lid motif : String) (xs : List Int)
    (bys : List (String × List Int)) (row : OutputRow)
    (h : processGroup lid motif xs bys = .ok (some row)) :
    ∃ entries : List (Int × Nat),
      row.allele_size_histogram = String.intercalate "," (entries.map sizeEntryStr) ∧
      (entries.map (fun e => e.2)).sum = xs.length := by
  obtain ⟨hne, rlid, tally, hr, ht, hrow⟩ := processGroup_ok_some lid motif xs bys row h
  refine ⟨sortSizeEntries (counterItems (sortInts xs)), by rw [hrow], ?_⟩
  set ys := sortInts xs with hys
  have hperm : ys.Perm xs := List.perm_insertionSort _ xs
  have hsp : (sortSizeEntries (counterItems ys)).Perm (counterItems ys) :=
    List.perm_insertionSort _ _
  have hsum1 : ((sortSizeEntries (counterItems ys)).map (fun e => e.2)).sum =
      ((counterItems ys).map (fun e => e.2)).sum :=
    (hsp.map (fun e => e.2)).sum_eq
  rw [hsum1]
  have hsum2 : ((counterItems ys).map (fun e => e.2)).sum =
      ((insertionKeys ys).map (fun v => ys.count v)).sum := by
    unfold counterItems
    rw [List.map_map]
    rfl
  rw [hsum2, sum_counts_of_cover ys (insertionKeys ys) (insertionKeysAux_nodup ys [])
    (fun y hy => (mem_insertionKeys ys y).2 hy)]
  exact hperm.length_eq


/-- Witness for C8 at the example group: counts 2 and 1 sum to the 3
contributing records. -/
theorem C8_witness :
    processGroup "L1" "A" [10, 12, 10] exampleBySample = .ok (some exampleRow) ∧
    ∃ entries : List (Int × Nat),
      exampleRow.allele_size_histogram = String.intercalate "," (entries.map sizeEntryStr) ∧
      (entries.map (fun e => e.2)).sum = [10, 12, 10].length := by
  have hpg : processGroup "L1" "A" [10, 12, 10] exampleBySample = .ok (some exampleRow) := by
    with_unfolding_all decide
  exact ⟨hpg, C8_size_histogram_total "L1" "A" [10, 12, 10] exampleBySample exampleRow hpg⟩

theorem bump_keys (acc : List ((Int × Int) × Nat)) (g : Int × Int) :
    (bump acc g).map Prod.fst =
      if g ∈ acc.map Prod.fst then acc.map Prod.fst else acc.map Prod.fst ++ [g] := by
  induction acc with
  | nil => simp [bump]
  | cons e rest ih =>
    unfold bump
    by_cases heg : e.1 = g
    · rw [if_pos heg]
      simp [heg]
    · rw [if_neg heg]
      by_cases hg : g ∈ rest.map Prod.fst
      · simp only [List.map_cons, ih, if_pos hg]
        rw [if_pos (List.mem_cons_of_mem e.1 hg)]
      · simp only [List.map_cons, ih, if_neg hg]
        rw [if_neg (by
          intro hmem
          rcases List.mem_cons.1 hmem with h | h
          exacts [heg h.symm, hg h])]
        simp

theorem bump_keys_nodup (acc : List ((Int × Int) × Nat)) (g : Int × Int)
    (hnd : (acc.map Prod.fst).Nodup) : ((bump acc g).map Prod.fst).Nodup := by
  rw [bump_keys]
  by_cases hg : g ∈ acc.map Prod.fst
  · rw [if_pos hg]; exact hnd
  · rw [if_neg hg]
    refine List.Nodup.append hnd (List.nodup_singleton g) ?_
    intro a ha hb
    rw [List.mem_singleton] at hb
    subst hb
    exact hg ha

theorem bump_sum (acc : List ((Int × Int) × Nat)) (g : Int × Int) :
    ((bump acc g).map (fun e => e.2)).sum = ((acc.map (fun e => e.2)).sum) + 1 := by
  induction acc with
  | nil => simp [bump]
  | cons e rest ih =>
    unfold bump
    by_cases heg : e.1 = g
    · rw [if_pos heg]
      simp
      omega
    · rw [if_neg heg]
      simp [ih]
      omega

theorem bump_mem (acc : List ((Int × Int) × Nat)) (g : Int × Int)
    (hnd : (acc.map Prod.fst).Nodup) (x : (Int × Int) × Nat) :
    x ∈ bump acc g ↔
      (x.1 ≠ g ∧ x ∈ acc) ∨
      (x.1 = g ∧ ∃ m, (g, m) ∈ acc ∧ x.2 = m + 1) ∨
      (x.1 = g ∧ g ∉ acc.map Prod.fst ∧ x.2 = 1) := by
  induction acc with
  | nil =>
    constructor
    · intro hx
      have hx1 : x = (g, 1) := by simpa [bump] using hx
      subst hx1
      exact Or.inr (Or.inr ⟨rfl, by simp, rfl⟩)
    · rintro (⟨-, h⟩ | ⟨-, m, h, -⟩ | ⟨h1, -, h2⟩)
      · simp at h
      · simp at h
      · have : x = (g, 1) := Prod.ext h1 h2
        simp [bump, this]
  | cons e rest ih =>
    have hend : e.1 ∉ rest.map Prod.fst := by
      rw [List.map_cons] at hnd
      exact (List.nodup_cons.1 hnd).1
    have hrnd : (rest.map Prod.fst).Nodup := by
      rw [List.map_cons] at hnd
      exact (List.nodup_cons.1 hnd).2
    unfold bump
    by_cases heg : e.1 = g
    · subst heg
      rw [if_pos rfl]
      constructor
      · intro hx
        rcases List.mem_cons.1 hx with rfl | hx
        · refine Or.inr (Or.inl ⟨rfl, e.2, ?_, rfl⟩)
          exact List.mem_cons_self _ _
        · have hxne : x.1 ≠ e.1 := by
            intro hxe
            exact hend (hxe ▸ List.mem_map_of_mem Prod.fst hx)
          exact Or.inl ⟨hxne, List.mem_cons_of_mem e hx⟩
      · rintro (⟨hne, hx⟩ | ⟨hxe, m, hm, hx2⟩ | ⟨hxe, hnotin, -⟩)
        · rcases List.mem_cons.1 hx with rfl | hx
          · exact absurd rfl hne
          · exact List.mem_cons_of_mem _ hx
        · rcases List.mem_cons.1 hm with he | hm
          · have hme : m = e.2 := by
              have h2 := congrArg Prod.snd he
              simpa using h2
            subst hme
            have hxeq : x = (e.1, e.2 + 1) := Prod.ext hxe hx2
            rw [hxeq]
            exact List.mem_cons_self _ _
          · exact absurd (List.mem_map_of_mem Prod.fst hm) hend
        · rw [List.map_cons] at hnotin
          exact absurd (List.mem_cons_self e.1 (rest.map Prod.fst)) hnotin
    · rw [if_neg heg]
      constructor
      · intro hx
        rcases List.mem_cons.1 hx with rfl | hx
        · exact Or.inl ⟨fun h => heg h, List.mem_cons_self _ _⟩
        · rcases (ih hrnd).1 hx with ⟨hne, hmem⟩ | ⟨hxe, m, hm, hx2⟩ | ⟨hxe, hnotin, hx2⟩
          · exact Or.inl ⟨hne, List.mem_cons_of_mem e hmem⟩
          · exact Or.inr (Or.inl ⟨hxe, m, List.mem_cons_of_mem e hm, hx2⟩)
          · refine Or.inr (Or.inr ⟨hxe, ?_, hx2⟩)
            intro hmem
            rw [List.map_cons] at hmem
            rcases List.mem_cons.1 hmem with h | h
            exacts [heg h.symm, hnotin h]
      · rintro (⟨hne, hx⟩ | ⟨hxe, m, hm, hx2⟩ | ⟨hxe, hnotin, hx2⟩)
        · rcases List.mem_cons.1 hx with rfl | hx
          · exact List.mem_cons_self _ _
          · exact List.mem_cons_of_mem _ ((ih hrnd).2 (Or.inl ⟨hne, hx⟩))
        · rcases List.mem_cons.1 hm with he | hm
          · exact absurd (congrArg Prod.fst he) (fun h => heg h.symm)
          · exact List.mem_cons_of_mem _ ((ih hrnd).2 (Or.inr (Or.inl ⟨hxe, m, hm, hx2⟩)))
        · refine List.mem_cons_of_mem _ ((ih hrnd).2 (Or.inr (Or.inr ⟨hxe, ?_, hx2⟩)))
          intro h
          apply hnotin
          rw [List.map_cons]
          exact List.mem_cons_of_mem _ h


theorem foldl_bump_sum (gs : List (Int × Int)) : ∀ acc,
    ((gs.foldl bump acc).map (fun e => e.2)).sum =
      ((acc.map (fun e => e.2)).sum) + gs.length := by
  induction gs with
  | nil => intro acc; simp
  | cons g gs ih =>
    intro acc
    rw [List.foldl_cons, ih (bump acc g), bump_sum]
    simp
    omega

theorem foldl_bump_keys_nodup (gs : List (Int × Int)) : ∀ acc,
    (acc.map Prod.fst).Nodup → ((gs.foldl bump acc).map Prod.fst).Nodup := by
  induction gs with
  | nil => intro acc h; simpa using h
  | cons g gs ih =>
    intro acc h
    rw [List.foldl_cons]
    exact ih (bump acc g) (bump_keys_nodup acc g h)

/-- Characterization of the genotype tally fold: an entry is in the final
tally iff its count is the accumulator's entry plus the number of occurrences,
or its key is new and counted from the processed genotypes. -/
theorem foldl_bump_mem (gs : List (Int × Int)) : ∀ (acc : List ((Int × Int) × Nat)),
    (acc.map Prod.fst).Nodup → ∀ x : (Int × Int) × Nat,
    (x ∈ gs.foldl bump acc ↔
      (∃ m, (x.1, m) ∈ acc ∧ x.2 = m + gs.count x.1) ∨
      (x.1 ∉ acc.map Prod.fst ∧ x.1 ∈ gs ∧ x.2 = gs.count x.1)) := by
  induction gs with
  | nil =>
    intro acc hnd x
    simp only [List.foldl_nil, List.count_nil, Nat.add_zero, List.not_mem_nil,
      and_false, false_and, and_false, or_false]
    constructor
    · intro hx
      exact ⟨x.2, hx, rfl⟩
    · rintro ⟨m, hm, h2⟩
      have : x = (x.1, m) := Prod.ext rfl h2
      rw [this]
      exact hm
  | cons g₀ gs ih =>
    intro acc hnd x
    rw [List.foldl_cons]
    rw [ih (bump acc g₀) (bump_keys_nodup acc g₀ hnd) x]
    have hcnt : (g₀ :: gs).count x.1 = gs.count x.1 + (if x.1 = g₀ then 1 else 0) := by
      rw [List.count_cons]
      rcases eq_or_ne x.1 g₀ with h | h
      · simp [h]
      · simp [h, Ne.symm h]
    by_cases hxg : x.1 = g₀
    · rw [hcnt, if_pos hxg]
      constructor
      · rintro (⟨m, hm, h2⟩ | ⟨hnotin, -, h2⟩)
        · rcases (bump_mem acc g₀ hnd (x.1, m)).1 hm with
            ⟨hne, -⟩ | ⟨-, m', hm', hmm⟩ | ⟨-, hgnot, hmm⟩
          · exact absurd hxg hne
          · refine Or.inl ⟨m', by rwa [hxg], by omega⟩
          · refine Or.inr ⟨by rwa [hxg], by rw [hxg]; exact List.mem_cons_self _ _, by omega⟩
        · exfalso
          apply hnotin
          rw [bump_keys]
          by_cases hg : g₀ ∈ acc.map Prod.fst
          · rw [if_pos hg, hxg]; exact hg
          · rw [if_neg hg, hxg]
            exact List.mem_append_right _ (List.mem_singleton.2 rfl)
      · rintro (⟨m, hm, h2⟩ | ⟨hnotin, -, h2⟩)
        · refine Or.inl ⟨m + 1, ?_, by omega⟩
          rw [bump_mem acc g₀ hnd (x.1, m + 1)]
          exact Or.inr (Or.inl ⟨hxg, m, by rwa [← hxg], rfl⟩)
        · refine Or.inl ⟨1, ?_, by omega⟩
          rw [bump_mem acc g₀ hnd (x.1, 1)]
          exact Or.inr (Or.inr ⟨hxg, by rwa [← hxg], rfl⟩)
    · rw [hcnt, if_neg hxg, Nat.add_zero]
      have hkeys : x.1 ∈ (bump acc g₀).map Prod.fst ↔ x.1 ∈ acc.map Prod.fst := by
        rw [bump_keys]
        by_cases hg : g₀ ∈ acc.map Prod.fst
        · rw [if_pos hg]
        · rw [if_neg hg]
          constructor
          · intro h
            rcases List.mem_append.1 h with h | h
            · exact h
            · exact absurd (List.mem_singleton.1 h) hxg
          · exact fun h => List.mem_append_left _ h
      constructor
      · rintro (⟨m, hm, h2⟩ | ⟨hnotin, hmem, h2⟩)
        · rcases (bump_mem acc g₀ hnd (x.1, m)).1 hm with
            ⟨-, hmem⟩ | ⟨hxe, -⟩ | ⟨hxe, -⟩
          · exact Or.inl ⟨m, hmem, h2⟩
          · exact absurd hxe hxg
          · exact absurd hxe hxg
        · refine Or.inr ⟨fun h => hnotin (hkeys.2 h), List.mem_cons_of_mem g₀ hmem, h2⟩
      · rintro (⟨m, hm, h2⟩ | ⟨hnotin, hmem, h2⟩)
        · refine Or.inl ⟨m, ?_, h2⟩
          rw [bump_mem acc g₀ hnd (x.1, m)]
          exact Or.inl ⟨hxg, hm⟩
        · refine Or.inr ⟨fun h => hnotin (hkeys.1 h), ?_, h2⟩
          rcases List.mem_cons.1 hmem with h | h
          · exact absurd h hxg
          · exact h


/-- When every sample's allele list has length 1 or 2, the genotype loop is
the pure tally fold. -/
theorem genotypeTallyAux_ok_of_lengths (rlid motif : String) (bys : List (String × List Int)) :
    ∀ acc, (∀ p ∈ bys, p.2.length = 1 ∨ p.2.length = 2) →
    genotypeTallyAux rlid motif acc bys =
      .ok (bys.foldl (fun t p => bump t (codeGeno p.2)) acc) := by
  induction bys with
  | nil => intro acc _; simp [genotypeTallyAux]
  | cons p rest ih =>
    intro acc hlen
    obtain ⟨s, l⟩ := p
    unfold genotypeTallyAux
    rw [if_pos (hlen (s, l) (List.mem_cons_self _ _))]
    rw [ih (bump acc (codeGeno l)) (fun q hq => hlen q (List.mem_cons_of_mem _ hq))]
    rfl

theorem genotypeTallyAux_lengths_of_ok (rlid motif : String) (bys : List (String × List Int)) :
    ∀ acc t, genotypeTallyAux rlid motif acc bys = .ok t →
    ∀ p ∈ bys, p.2.length = 1 ∨ p.2.length = 2 := by
  induction bys with
  | nil => intro acc t _ p hp; simp at hp
  | cons q rest ih =>
    intro acc t ht p hp
    obtain ⟨s, l⟩ := q
    unfold genotypeTallyAux at ht
    by_cases hl : l.length = 1 ∨ l.length = 2
    · rw [if_pos hl] at ht
      rcases List.mem_cons.1 hp with rfl | hp
      · exact hl
      · exact ih (bump acc (codeGeno l)) t ht p hp
    · rw [if_neg hl] at ht
      exact absurd ht (by simp)

/-- The genotype loop fails at the first sample whose allele list length is
neither 1 nor 2, naming that sample, the resolved locus and the motif. -/
theorem genotypeTallyAux_error_first (rlid motif : String) (s : String) (l : List Int)
    (bys₂ : List (String × List Int)) (hl : ¬(l.length = 1 ∨ l.length = 2)) :
    ∀ (bys₁ : List (String × List Int)) acc,
      (∀ p ∈ bys₁, p.2.length = 1 ∨ p.2.length = 2) →
      genotypeTallyAux rlid motif acc (bys₁ ++ (s, l) :: bys₂) =
        .error (.alleleCount l.length s rlid motif) := by
  intro bys₁
  induction bys₁ with
  | nil =>
    intro acc _
    rw [List.nil_append]
    unfold genotypeTallyAux
    rw [if_neg hl]
  | cons q rest ih =>
    intro acc hlen
    obtain ⟨s', l'⟩ := q
    rw [List.cons_append]
    unfold genotypeTallyAux
    rw [if_pos (hlen (s', l') (List.mem_cons_self _ _))]
    exact ih (bump acc (codeGeno l')) (fun p hp => hlen p (List.mem_cons_of_mem _ hp))

theorem specGenotypeOf_ne_none_iff (l : List Int) :
    specGenotypeOf l ≠ none ↔ l.length = 1 ∨ l.length = 2 := by
  match l with
  | [] => simp [specGenotypeOf]
  | [a] => simp [specGenotypeOf]
  | [a, b] => simp [specGenotypeOf]
  | a :: b :: c :: t => simp [specGenotypeOf]

/-- The code's genotype (duplicate a singleton, `tuple(sorted(...))`) agrees
with the spec's normalization (homozygous duplication, `(low, high)` pair). -/
theorem codeGeno_eq_spec (l : List Int) (h : l.length = 1 ∨ l.length = 2) :
    specGenotypeOf l = some (codeGeno l) := by
  rcases h with h | h
  · obtain ⟨a, rfl⟩ := List.length_eq_one.1 h
    have hcg : codeGeno [a] = pairOfSorted [a, a] := by
      unfold codeGeno
      rw [if_pos (by simp)]
      rfl
    have hp : pairOfSorted [a, a] = (a, a) := by
      unfold pairOfSorted
      have hsort : sortInts [a, a] = if a ≤ a then [a, a] else [a, a] := rfl
      rw [hsort, if_pos (le_refl a)]
    rw [hcg, hp]
    rfl
  · obtain ⟨a, b, rfl⟩ := List.length_eq_two.1 h
    have hcg : codeGeno [a, b] = pairOfSorted [a, b] := by
      unfold codeGeno
      rw [if_neg (by simp)]
    have hsort : sortInts [a, b] = if a ≤ b then [a, b] else [b, a] := rfl
    rcases le_or_lt a b with hab | hab
    · have hp : pairOfSorted [a, b] = (a, b) := by
        unfold pairOfSorted
        rw [hsort, if_pos hab]
      rw [hcg, hp]
      show some (min a b, max a b) = some (a, b)
      rw [min_eq_left hab, max_eq_right hab]
    · have hp : pairOfSorted [a, b] = (b, a) := by
        unfold pairOfSorted
        rw [hsort, if_neg (not_le.2 hab)]
      rw [hcg, hp]
      show some (min a b, max a b) = some (b, a)
      rw [min_eq_right hab.le, max_eq_left hab.le]


/-- C10: the biallelic histogram's counts sum to the number of samples in the
per-sample dict — i.e. the number of distinct sample ids that contributed at
least one valid allele-size record to the group. -/
theorem C10_biallelic_total (lid motif : String) (xs : List Int)
    (bys : List (String × List Int)) (row : OutputRow)
    (h : processGroup lid motif xs bys = .ok (some row))
    (_hnd : (bys.map Prod.fst).Nodup) :
    ∃ entries : List ((Int × Int) × Nat),
      row.biallelic_histogram = String.intercalate "," (entries.map genoEntryStr) ∧
      (entries.map (fun e => e.2)).sum = bys.length := by
  obtain ⟨hne, rlid, tally, hr, ht, hrow⟩ := processGroup_ok_some lid motif xs bys row h
  refine ⟨sortGenoEntries tally, by rw [hrow], ?_⟩
  have hlen := genotypeTallyAux_lengths_of_ok rlid motif bys [] tally ht
  have hok := genotypeTallyAux_ok_of_lengths rlid motif bys [] hlen
  rw [ht] at hok
  have htally : tally = bys.foldl (fun t p => bump t (codeGeno p.2)) [] := by
    injection hok
  have hperm : (sortGenoEntries tally).Perm tally := List.perm_insertionSort _ _
  rw [(hperm.map (fun e => e.2)).sum_eq, htally,
    ← List.foldl_map (fun p : String × List Int => codeGeno p.2) bump bys []]
  rw [foldl_bump_sum]
  simp


theorem decide_spec_eq_code (p : String × List Int) (g : Int × Int)
    (hl : p.2.length = 1 ∨ p.2.length = 2) :
    (codeGeno p.2 == g) = decide (specGenotypeOf p.2 = some g) := by
  rw [codeGeno_eq_spec p.2 hl]
  by_cases hcg : codeGeno p.2 = g
  · simp [hcg]
  · simp [hcg]

/-- C3: a sample allele list of length other than 1 or 2 aborts the run with
the fatal error naming the sample, resolved locus and motif; on success every
sample list normalizes per the spec, and the emitted biallelic histogram is
the comma-joined `<low>/<high>:<count>` serialization of the per-genotype
tallies, strictly ascending in the `(high, low)` key, with each genotype's
count equal to the number of samples normalizing to it. -/
theorem C3_biallelic_histogram :
    (∀ (lid motif rlid : String) (xs : List Int) (bys₁ bys₂ : List (String × List Int))
        (s : String) (l : List Int),
        xs ≠ [] →
        resolveLocusId lid motif = .ok rlid →
        (∀ p ∈ bys₁, p.2.length = 1 ∨ p.2.length = 2) →
        ¬(l.length = 1 ∨ l.length = 2) →
        processGroup lid motif xs (bys₁ ++ (s, l) :: bys₂) =
          .error (.alleleCount l.length s rlid motif)) ∧
    (∀ (lid motif : String) (xs : List Int) (bys : List (String × List Int))
        (row : OutputRow),
        processGroup lid motif xs bys = .ok (some row) →
        (∀ p ∈ bys, specGenotypeOf p.2 ≠ none) ∧
        ∃ entries : List ((Int × Int) × Nat),
          row.biallelic_histogram = String.intercalate "," (entries.map genoEntryStr) ∧
          entries.Pairwise ltGenoEntry ∧
          (∀ (g : Int × Int) (n : Nat), ((g, n) ∈ entries ↔ 0 < n ∧
            n = (bys.filter (fun p => specGenotypeOf p.2 = some g)).length))) := by
  constructor
  · intro lid motif rlid xs bys₁ bys₂ s l hxs hres hlen hl
    unfold processGroup
    rw [if_neg (by simpa using hxs), hres]
    dsimp only
    rw [genotypeTallyAux_error_first rlid motif s l bys₂ hl bys₁ [] hlen]
  · intro lid motif xs bys row h
    obtain ⟨hne, rlid, tally, hr, ht, hrow⟩ := processGroup_ok_some lid motif xs bys row h
    have hlen := genotypeTallyAux_lengths_of_ok rlid motif bys [] tally ht
    refine ⟨fun p hp => (specGenotypeOf_ne_none_iff p.2).2 (hlen p hp), ?_⟩
    have hok := genotypeTallyAux_ok_of_lengths rlid motif bys [] hlen
    rw [ht] at hok
    have htally : tally = bys.foldl (fun t p => bump t (codeGeno p.2)) [] := by
      injection hok
    have hfold : tally = (bys.map (fun p => codeGeno p.2)).foldl bump [] := by
      rw [htally, ← List.foldl_map (fun p : String × List Int => codeGeno p.2) bump bys []]
    set gs := bys.map (fun p => codeGeno p.2) with hgs
    have hperm : (sortGenoEntries tally).Perm tally := List.perm_insertionSort _ _
    have hknd : (tally.map Prod.fst).Nodup := by
      rw [hfold]
      exact foldl_bump_keys_nodup gs [] (by simp)
    refine ⟨sortGenoEntries tally, by rw [hrow], ?_, ?_⟩
    · have hsorted : (sortGenoEntries tally).Pairwise leGenoEntry :=
        List.sorted_insertionSort leGenoEntry tally
      have hfstne : (sortGenoEntries tally).Pairwise (fun a b => a.1 ≠ b.1) := by
        refine (hperm.pairwise_iff (fun h => h.symm)).2 ?_
        exact (List.pairwise_map).1 hknd
      refine (hsorted.and hfstne).imp ?_
      rintro a b ⟨hle, hne2⟩
      rcases hle with hlt | ⟨heq, hle1⟩
      · exact Or.inl hlt
      · refine Or.inr ⟨heq, lt_of_le_of_ne hle1 ?_⟩
        intro heq1
        exact hne2 (Prod.ext heq1 heq)
    · intro g n
      rw [hperm.mem_iff, hfold,
        foldl_bump_mem gs [] (by simp) (g, n)]
      dsimp only
      have hcount : gs.count g = (bys.filter (fun p => specGenotypeOf p.2 = some g)).length := by
        rw [List.count_eq_countP, hgs, List.countP_map, ← List.countP_eq_length_filter]
        refine List.countP_congr ?_
        intro p hp
        simp only [Function.comp_apply]
        rw [decide_spec_eq_code p g (hlen p hp)]
      constructor
      · rintro (⟨m, hm, -⟩ | ⟨-, hmem, hn⟩)
        · simp at hm
        · refine ⟨?_, by rw [hn, hcount]⟩
          rw [hn]
          exact List.count_pos_iff.2 hmem
      · rintro ⟨hpos, hn⟩
        refine Or.inr ⟨by simp, ?_, by rw [hn, hcount]⟩
        rw [hn, ← hcount] at hpos
        exact List.count_pos_iff.1 hpos


/-- Witness for C10 at the example group: genotype counts 1 and 1 sum to the
2 contributing samples. -/
theorem C10_witness :
    processGroup "L1" "A" [10, 12, 10] exampleBySample = .ok (some exampleRow) ∧
    ∃ entries : List ((Int × Int) × Nat),
      exampleRow.biallelic_histogram = String.intercalate "," (entries.map genoEntryStr) ∧
      (entries.map (fun e => e.2)).sum = exampleBySample.length := by
  have hpg : processGroup "L1" "A" [10, 12, 10] exampleBySample = .ok (some exampleRow) := by
    with_unfolding_all decide
  exact ⟨hpg, C10_biallelic_total "L1" "A" [10, 12, 10] exampleBySample exampleRow hpg
    (by with_unfolding_all decide)⟩

/-- Witness for C3: a 3-allele sample aborts with the alleleCount error, and
the example group's histogram satisfies the success-side description. -/
theorem C3_witness :
    processGroup "L" "A" [5] [("S1", [1, 2, 3])] = .error (.alleleCount 3 "S1" "L" "A") ∧
    ((∀ p ∈ exampleBySample, specGenotypeOf p.2 ≠ none) ∧
     ∃ entries : List ((Int × Int) × Nat),
       exampleRow.biallelic_histogram = String.intercalate "," (entries.map genoEntryStr) ∧
       entries.Pairwise ltGenoEntry ∧
       (∀ (g : Int × Int) (n : Nat), ((g, n) ∈ entries ↔ 0 < n ∧
         n = (exampleBySample.filter (fun p => specGenotypeOf p.2 = some g)).length))) := by
  have h := C3_biallelic_histogram
  refine ⟨?_, ?_⟩
  · have h1 := h.1 "L" "A" "L" [5] [] [] "S1" [1, 2, 3] (by with_unfolding_all decide)
      (by with_unfolding_all decide) (by simp) (by with_unfolding_all decide)
    simpa using h1
  · exact h.2 "L1" "A" [10, 12, 10] exampleBySample exampleRow (by with_unfolding_all decide)

/-- C4: the emitted summary statistics are: the mean of the group's allele
sizes formatted to 3 decimal places; the population standard deviation
(divisor N) formatted to 3 decimal places; the median of the sorted sizes
truncated toward zero; and the 99th percentile at linear-interpolated rank
`99/100 * (n-1)` truncated toward zero. -/
theorem C4_summary_statistics (lid motif : String) (xs : List Int)
    (bys : List (String × List Int)) (row : OutputRow)
    (h : processGroup lid motif xs bys = .ok (some row)) :
    row.mean = fmt3 (specMean xs) ∧
    row.stdev = fmtStd3 (specPopVar xs) ∧
    row.median = truncQ (specMedian xs) ∧
    row.p99 = truncQ (specPercentile99 xs) := by
  obtain ⟨hne, rlid, tally, hr, ht, hrow⟩ := processGroup_ok_some lid motif xs bys row h
  have hperm : (sortInts xs).Perm xs := List.perm_insertionSort _ xs
  have hmean : npMean (sortInts xs) = specMean xs := by
    unfold npMean specMean
    rw [hperm.sum_eq, hperm.length_eq]
  have hvar : npVarPop (sortInts xs) = specPopVar xs := by
    unfold npVarPop specPopVar
    rw [hmean, (List.Perm.map (fun x : Int => ((x : Rat) - specMean xs) ^ 2) hperm).sum_eq,
      hperm.length_eq]
  have hmed : npMedianOfSorted (sortInts xs) = specMedian xs := rfl
  have hlen1 : 1 ≤ xs.length := List.length_pos.2 hne
  have hp99 : npPercentile99OfSorted (sortInts xs) = specPercentile99 xs := by
    have hr99 : (((sortInts xs).length - 1 : Nat) : Rat) * 99 / 100 =
        99 * ((xs.length : Rat) - 1) / 100 := by
      rw [hperm.length_eq, Nat.cast_sub hlen1]
      push_cast
      ring
    simp only [npPercentile99OfSorted, specPercentile99]
    rw [hr99]
  rw [hrow]
  exact ⟨by rw [hmean], by rw [hvar], by rw [hmed], by rw [hp99]⟩

/-- Witness for C4 at the example group: mean 32/3 → "10.667", stdev
√(8/9) → "0.943", median 10, 99th percentile trunc(11.96) = 11. -/
theorem C4_witness :
    processGroup "L1" "A" [10, 12, 10] exampleBySample = .ok (some exampleRow) ∧
    exampleRow.mean = fmt3 (specMean [10, 12, 10]) ∧
    exampleRow.stdev = fmtStd3 (specPopVar [10, 12, 10]) ∧
    exampleRow.median = truncQ (specMedian [10, 12, 10]) ∧
    exampleRow.p99 = truncQ (specPercentile99 [10, 12, 10]) := by
  have hpg : processGroup "L1" "A" [10, 12, 10] exampleBySample = .ok (some exampleRow) := by
    with_unfolding_all decide
  have h := C4_summary_statistics "L1" "A" [10, 12, 10] exampleBySample exampleRow hpg
  exact ⟨hpg, h.1, h.2.1, h.2.2.1, h.2.2.2⟩

theorem recordAllele_seenKeys (st : LoopState) (s : String) (z : Option Int) :
    (recordAllele st s z).seenKeys = st.seenKeys := by cases z <;> rfl

theorem recordAllele_previousKey (st : LoopState) (s : String) (z : Option Int) :
    (recordAllele st s z).previousKey = st.previousKey := by cases z <;> rfl

theorem recordAllele_err (st : LoopState) (s : String) (z : Option Int) :
    (recordAllele st s z).err = st.err := by cases z <;> rfl

theorem recordAllele_curLocus (st : LoopState) (s : String) (z : Option Int) :
    (recordAllele st s z).curLocus = st.curLocus := by cases z <;> rfl

theorem recordAllele_curMotif (st : LoopState) (s : String) (z : Option Int) :
    (recordAllele st s z).curMotif = st.curMotif := by cases z <;> rfl

theorem flushInto_seenKeys (st : LoopState) (l m : String) :
    (flushInto st l m).seenKeys = st.seenKeys := by
  unfold flushInto
  split <;> rfl

theorem flushInto_previousKey (st : LoopState) (l m : String) :
    (flushInto st l m).previousKey = st.previousKey := by
  unfold flushInto
  split <;> rfl

theorem flushInto_curLocus (st : LoopState) (l m : String) :
    (flushInto st l m).curLocus = st.curLocus := by
  unfold flushInto
  split <;> rfl

theorem flushInto_curMotif (st : LoopState) (l m : String) :
    (flushInto st l m).curMotif = st.curMotif := by
  unfold flushInto
  split <;> rfl

theorem step_err_absorb (st : LoopState) (l : Line) (h : st.err.isSome) : step st l = st := by
  unfold step
  rw [if_pos h]

theorem foldl_err_absorb (L : List Line) : ∀ st : LoopState, st.err.isSome →
    List.foldl step st L = st := by
  induction L with
  | nil => intro st _; rfl
  | cons l L ih =>
    intro st h
    rw [List.foldl_cons, step_err_absorb st l h]
    exact ih st h

theorem step_seen_mono (st : LoopState) (l : Line) (K : String × String)
    (h : K ∈ st.seenKeys) : K ∈ (step st l).seenKeys := by
  by_cases he : st.err.isSome
  · rw [step_err_absorb st l he]
    exact h
  · have hen : st.err = none := by
      cases hv : st.err
      · rfl
      · rw [hv] at he; simp at he
    cases l with
    | malformed => simpa [step, hen] using h
    | row a b c d =>
      rcases hpv : st.previousKey with _ | P
      · cases d <;> simpa [step, hen, hpv, recordAllele] using h
      · by_cases hk : (a, b) = P
        · cases d <;> simpa [step, hen, hpv, hk, recordAllele] using h
        · by_cases hmem : P ∈ st.seenKeys
          · simpa [step, hen, hpv, hk, boundaryStep, hmem] using h
          · simp only [step, hen, hpv, boundaryStep, hmem, Option.isSome_none,
              Bool.false_eq_true, if_false, Option.getD_some, if_neg hk, if_neg hmem]
            cases hpg : processGroup P.1 P.2 st.alleles st.bySample with
            | error e =>
              simp [flushInto, hpg]
              exact Or.inr h
            | ok o =>
              cases o with
              | none =>
                cases d <;> simp [flushInto, hpg, recordAllele] <;> exact Or.inr h
              | some row =>
                cases d <;> simp [flushInto, hpg, recordAllele] <;> exact Or.inr h

theorem foldl_seen_mono (L : List Line) : ∀ (st : LoopState) (K : String × String),
    K ∈ st.seenKeys → K ∈ (List.foldl step st L).seenKeys := by
  induction L with
  | nil => intro st K h; exact h
  | cons l L ih =>
    intro st K h
    rw [List.foldl_cons]
    exact ih (step st l) K (step_seen_mono st l K h)


theorem step_row_prev (st : LoopState) (a b c : String) (d : Option Int)
    (hen : st.err = none) :
    ((step st (.row a b c d)).err).isSome ∨
      (step st (.row a b c d)).previousKey = some (a, b) := by
  rcases hpv : st.previousKey with _ | P
  · right
    cases d <;> simp [step, hen, hpv, recordAllele]
  · by_cases hk : (a, b) = P
    · right
      cases d <;> simp [step, hen, hpv, hk, recordAllele]
    · by_cases hmem : P ∈ st.seenKeys
      · left
        simp [step, hen, hpv, hk, boundaryStep, hmem]
      · simp only [step, hen, hpv, boundaryStep, hmem, Option.isSome_none,
          Bool.false_eq_true, if_false, Option.getD_some, if_neg hk, if_neg hmem]
        cases hpg : processGroup P.1 P.2 st.alleles st.bySample with
        | error e => left; simp [flushInto, hpg]
        | ok o =>
          right
          cases o with
          | none => cases d <;> simp [flushInto, hpg, recordAllele]
          | some row => cases d <;> simp [flushInto, hpg, recordAllele]

theorem step_at_key (st : LoopState) (K : String × String) (c : String) (d : Option Int)
    (hen : st.err = none) (hK : K ∈ st.seenKeys) :
    ((step st (.row K.1 K.2 c d)).err).isSome ∨
      (K ∈ (step st (.row K.1 K.2 c d)).seenKeys ∧
       (step st (.row K.1 K.2 c d)).previousKey = some K ∧
       (step st (.row K.1 K.2 c d)).curLocus = K.1 ∧
       (step st (.row K.1 K.2 c d)).curMotif = K.2 ∧
       (d.isSome → (step st (.row K.1 K.2 c d)).alleles ≠ [])) := by
  have hKeta : (K.1, K.2) = K := rfl
  rcases hpv : st.previousKey with _ | P
  · right
    refine ⟨step_seen_mono st _ K hK, ?_⟩
    cases d <;> simp [step, hen, hpv, recordAllele]
  · by_cases hk : (K.1, K.2) = P
    · right
      refine ⟨step_seen_mono st _ K hK, ?_⟩
      cases d <;> simp [step, hen, hpv, hk, recordAllele] <;>
        exact hk.symm.trans hKeta
    · by_cases hmem : P ∈ st.seenKeys
      · left
        simp [step, hen, hpv, hk, boundaryStep, hmem]
      · simp only [step, hen, hpv, boundaryStep, hmem, Option.isSome_none,
          Bool.false_eq_true, if_false, Option.getD_some, if_neg hk, if_neg hmem]
        cases hpg : processGroup P.1 P.2 st.alleles st.bySample with
        | error e => left; simp [flushInto, hpg]
        | ok o =>
          right
          cases o with
          | none =>
            cases d with
            | none => simp [flushInto, hpg, recordAllele, hK]
            | some v => simp [flushInto, hpg, recordAllele, hK]
          | some row =>
            cases d with
            | none => simp [flushInto, hpg, recordAllele, hK]
            | some v => simp [flushInto, hpg, recordAllele, hK]


/-- Walking any stretch of lines from a state whose open key is `K` either
aborts, or closes `K` into `seen_keys` (a different key appeared), or keeps
`K` open because every record in the stretch had key `K`. -/
theorem walk_middle (K : String × String) (L : List Line) : ∀ (st : LoopState),
    st.previousKey = some K →
    ((List.foldl step st L).err).isSome ∨
    K ∈ (List.foldl step st L).seenKeys ∨
    ((List.foldl step st L).previousKey = some K ∧
      ∀ x ∈ L, ∀ a b c d, x = Line.row a b c d → (a, b) = K) := by
  induction L with
  | nil =>
    intro st hpv
    right; right
    exact ⟨hpv, by simp⟩
  | cons l L ih =>
    intro st hpv
    by_cases he : st.err.isSome
    · left
      rw [List.foldl_cons, step_err_absorb st l he, foldl_err_absorb L st he]
      exact he
    · have hen : st.err = none := by
        cases hv : st.err
        · rfl
        · rw [hv] at he; simp at he
      rw [List.foldl_cons]
      cases l with
      | malformed =>
        have hpv' : (step st .malformed).previousKey = some K := by simp [step, hen, hpv]
        rcases ih (step st .malformed) hpv' with h | h | ⟨h1, h2⟩
        · exact Or.inl h
        · exact Or.inr (Or.inl h)
        · refine Or.inr (Or.inr ⟨h1, ?_⟩)
          intro x hx a b c d hxe
          rcases List.mem_cons.1 hx with rfl | hx
          · exact absurd hxe (by simp)
          · exact h2 x hx a b c d hxe
      | row a b c d =>
        by_cases hk : (a, b) = K
        · have hpv' : (step st (.row a b c d)).previousKey = some K := by
            subst hk
            cases d <;> simp [step, hen, hpv, recordAllele]
          rcases ih (step st (.row a b c d)) hpv' with h | h | ⟨h1, h2⟩
          · exact Or.inl h
          · exact Or.inr (Or.inl h)
          · refine Or.inr (Or.inr ⟨h1, ?_⟩)
            intro x hx a' b' c' d' hxe
            rcases List.mem_cons.1 hx with rfl | hx
            · cases hxe
              exact hk
            · exact h2 x hx a' b' c' d' hxe
        · by_cases hmem : K ∈ st.seenKeys
          · right; left
            exact foldl_seen_mono L _ K (step_seen_mono st _ K hmem)
          · have hKseen : ((step st (.row a b c d)).err).isSome ∨
                K ∈ (step st (.row a b c d)).seenKeys := by
              have hkne : (a, b) ≠ K := hk
              simp only [step, hen, hpv, boundaryStep, Option.isSome_none,
                Bool.false_eq_true, if_false, Option.getD_some,
                if_neg hkne, if_neg hmem]
              cases hpg : processGroup K.1 K.2 st.alleles st.bySample with
              | error e => left; simp [flushInto, hpg]
              | ok o =>
                right
                cases o with
                | none =>
                  cases d <;> simp [flushInto, hpg, recordAllele]
                | some row =>
                  cases d <;> simp [flushInto, hpg, recordAllele]
            rcases hKseen with h | h
            · left
              rw [foldl_err_absorb L _ h]
              exact h
            · right; left
              exact foldl_seen_mono L _ K h


/-- `processGroup` returns no row only for an empty group. -/
theorem processGroup_ok_none (lid motif : String) (xs : List Int)
    (bys : List (String × List Int))
    (h : processGroup lid motif xs bys = .ok none) : xs = [] := by
  unfold processGroup at h
  by_cases he : xs.isEmpty
  · exact List.isEmpty_iff.1 he
  · rw [if_neg he] at h
    cases hr : resolveLocusId lid motif with
    | error e => rw [hr] at h; exact absurd h (by simp)
    | ok rlid =>
      rw [hr] at h
      dsimp only at h
      cases ht : genotypeTallyAux rlid motif [] bys with
      | error e => rw [ht] at h; exact absurd h (by simp)
      | ok tally => rw [ht] at h; exact absurd h (by simp)

/-- Once the repeated key `K` is both open and in `seen_keys`, the run is
doomed: a later different key triggers the mid-stream duplicate check, and at
end of stream a non-empty accumulator (guaranteed by `tailRescue`) triggers
the final duplicate check. -/
theorem phase_final (K : String × String) (L : List Line) : ∀ (st : LoopState),
    (st.err.isSome ∨
      (K ∈ st.seenKeys ∧ st.previousKey = some K ∧
        st.curLocus = K.1 ∧ st.curMotif = K.2 ∧
        (st.alleles ≠ [] ∨ tailRescue K L))) →
    ((finish (List.foldl step st L)).err).isSome := by
  induction L with
  | nil =>
    intro st h
    rw [List.foldl_nil]
    rcases h with he | ⟨hK, hpv, hcl, hcm, hrest⟩
    · unfold finish
      rw [if_pos he]
      exact he
    · rcases hrest with hall | hres
      · by_cases he : st.err.isSome
        · unfold finish
          rw [if_pos he]
          exact he
        · unfold finish
          rw [if_neg he, if_neg (by simpa [List.isEmpty_iff] using hall)]
          cases hpg : processGroup st.curLocus st.curMotif st.alleles st.bySample with
          | error e => simp
          | ok o =>
            cases o with
            | none => exact absurd (processGroup_ok_none _ _ _ _ hpg) hall
            | some row =>
              dsimp only
              rw [if_pos (show (st.curLocus, st.curMotif) ∈ st.seenKeys by
                rw [hcl, hcm]; exact hK)]
              simp
      · exact absurd hres (by simp [tailRescue])
  | cons l L ih =>
    intro st h
    rcases h with he | ⟨hK, hpv, hcl, hcm, hrest⟩
    · rw [List.foldl_cons, step_err_absorb st l he, foldl_err_absorb L st he]
      unfold finish
      rw [if_pos he]
      exact he
    · by_cases he : st.err.isSome
      · rw [List.foldl_cons, step_err_absorb st l he, foldl_err_absorb L st he]
        unfold finish
        rw [if_pos he]
        exact he
      · have hen : st.err = none := by
          cases hv : st.err
          · rfl
          · rw [hv] at he; simp at he
        rw [List.foldl_cons]
        cases l with
        | malformed =>
          apply ih
          right
          refine ⟨by simpa [step, hen] using hK, by simp [step, hen, hpv],
            by simp [step, hen, hcl], by simp [step, hen, hcm], ?_⟩
          rcases hrest with hall | hres
          · left
            simpa [step, hen] using hall
          · right
            obtain ⟨x, hx, a, b, c, d, hxe, hcond⟩ := hres
            rcases List.mem_cons.1 hx with rfl | hx
            · exact absurd hxe (by simp)
            · exact ⟨x, hx, a, b, c, d, hxe, hcond⟩
        | row a b c d =>
          by_cases hk : (a, b) = K
          · have ha : a = K.1 := by rw [← hk]
            have hb : b = K.2 := by rw [← hk]
            have hcase : st.alleles ≠ [] ∨ d ≠ none ∨ tailRescue K L := by
              rcases hrest with hall | hres
              · exact Or.inl hall
              · obtain ⟨x, hx, a', b', c', d', hxe, hcond⟩ := hres
                rcases List.mem_cons.1 hx with rfl | hx
                · cases hxe
                  rcases hcond with hcond | hcond
                  · exact absurd hk hcond
                  · exact Or.inr (Or.inl hcond)
                · exact Or.inr (Or.inr ⟨x, hx, a', b', c', d', hxe, hcond⟩)
            apply ih
            right
            refine ⟨step_seen_mono st _ K hK, ?_, ?_, ?_, ?_⟩
            · cases d <;> simp [step, hen, hpv, hk, recordAllele]
            · cases d <;> simp [step, hen, hpv, hk, recordAllele] <;> exact ha
            · cases d <;> simp [step, hen, hpv, hk, recordAllele] <;> exact hb
            · rcases hcase with hall | hd | hres
              · left
                cases d <;> simp [step, hen, hpv, hk, recordAllele, hall]
              · left
                cases hd0 : d with
                | none => exact absurd hd0 hd
                | some v => simp [step, hen, hpv, hk, recordAllele]
              · exact Or.inr hres
          · have herr : ((step st (.row a b c d)).err).isSome := by
              simp [step, hen, hpv, boundaryStep, hk, hK]
            rw [foldl_err_absorb L _ herr]
            unfold finish
            rw [if_pos herr]
            exact herr


/-- C5 (amended): if a record with key `K` is followed (after an intervening
record with a different key, which finalizes `K`) by another record with key
`K`, and from that reappearance onward either the reappearing record has a
valid allele size or some later record has a different key or a valid
allele size under `K`, then the run aborts fatally. -/
theorem C5_sort_violation_aborts (K : String × String) (sa sb : String)
    (za zb : Option Int) (A B C : List Line)
    (hB : ∃ x ∈ B, ∃ a b c d, x = Line.row a b c d ∧ (a, b) ≠ K)
    (hT : zb.isSome ∨ tailRescue K C) :
    ((runMain (A ++ Line.row K.1 K.2 sa za ::
        (B ++ Line.row K.1 K.2 sb zb :: C))).err).isSome := by
  unfold runMain runAll
  rw [List.foldl_append, List.foldl_cons, List.foldl_append, List.foldl_cons]
  set st0 := List.foldl step initState A with hst0
  by_cases h0 : st0.err.isSome
  · rw [step_err_absorb st0 _ h0, foldl_err_absorb B st0 h0,
      step_err_absorb st0 _ h0, foldl_err_absorb C st0 h0]
    unfold finish
    rw [if_pos h0]
    exact h0
  · have hen0 : st0.err = none := by
      cases hv : st0.err
      · rfl
      · rw [hv] at h0; simp at h0
    rcases step_row_prev st0 K.1 K.2 sa za hen0 with h1 | h1
    · rw [foldl_err_absorb B _ h1, step_err_absorb _ _ h1, foldl_err_absorb C _ h1]
      unfold finish
      rw [if_pos h1]
      exact h1
    · have h1' : (step st0 (Line.row K.1 K.2 sa za)).previousKey = some K := h1
      rcases walk_middle K B (step st0 (Line.row K.1 K.2 sa za)) h1' with
        h2 | h2 | ⟨h2p, h2all⟩
      · rw [step_err_absorb _ _ h2, foldl_err_absorb C _ h2]
        unfold finish
        rw [if_pos h2]
        exact h2
      · by_cases h2e : (List.foldl step (step st0 (Line.row K.1 K.2 sa za)) B).err.isSome
        · rw [step_err_absorb _ _ h2e, foldl_err_absorb C _ h2e]
          unfold finish
          rw [if_pos h2e]
          exact h2e
        · have hen2 : (List.foldl step (step st0 (Line.row K.1 K.2 sa za)) B).err = none := by
            cases hv : (List.foldl step (step st0 (Line.row K.1 K.2 sa za)) B).err
            · rfl
            · rw [hv] at h2e; simp at h2e
          rcases step_at_key _ K sb zb hen2 h2 with h3 | ⟨h3K, h3p, h3l, h3m, h3a⟩
          · rw [foldl_err_absorb C _ h3]
            unfold finish
            rw [if_pos h3]
            exact h3
          · apply phase_final K C
            right
            refine ⟨h3K, h3p, h3l, h3m, ?_⟩
            rcases hT with hzb | hres
            · exact Or.inl (h3a hzb)
            · exact Or.inr hres
      · exfalso
        obtain ⟨x, hx, a, b, c, d, hxe, hne⟩ := hB
        exact hne (h2all x hx a b c d hxe)

/-- Witness for C5: the stream `L1, L2, L1` with all valid allele sizes
aborts (the end-of-stream duplicate check fires on the reopened `L1`). -/
theorem C5_witness :
    (∃ x ∈ [Line.row "L2" "A" "S1" (some 10)], ∃ a b c d, x = Line.row a b c d ∧
      (a, b) ≠ (("L1", "A") : String × String)) ∧
    ((runMain ([] ++ Line.row "L1" "A" "S1" (some 10) ::
        ([Line.row "L2" "A" "S1" (some 10)] ++
          Line.row "L1" "A" "S1" (some 11) :: []))).err).isSome := by
  refine ⟨⟨Line.row "L2" "A" "S1" (some 10), by simp, "L2", "A", "S1", some 10, rfl,
    by with_unfolding_all decide⟩, ?_⟩
  exact C5_sort_violation_aborts ("L1", "A") "S1" "S1" (some 10) (some 11) []
    [Line.row "L2" "A" "S1" (some 10)] []
    ⟨Line.row "L2" "A" "S1" (some 10), by simp, "L2", "A", "S1", some 10, rfl,
      by with_unfolding_all decide⟩
    (Or.inl rfl)

end TRE
